import Mathlib

/-!
Shallow embedding of the gojtp JSON threat-protection validator (jtp.go).

Bytes are modelled as `Nat` (values 0..255), byte buffers as `List Nat`,
Go `int` values (limits, counters, the depth counter) as `Int`, array
indices as `Nat`.  `data[i]` is modelled as `data.getD i 0`; every access
in the Go source is in bounds, so the default is never observable.
Go errors are modelled as `Option String` (`nil` = `none`), with the
error text built exactly as the `fmt.Errorf` format strings build it.
The mutually recursive scanners consume an explicit fuel argument; the
public entry point supplies fuel that is large enough for every input
(each recursive call either consumes fuel and input, and the nesting of
calls that do not advance the cursor is bounded by a small constant).
-/

namespace Gojtp

/-- Constant `objectKeyValueLength` from jtp.go line 18. -/
def objectKeyValueLength : String := "maxKeyLengthReached"

/-- Constant `stringValueLength` from jtp.go line 19. -/
def stringValueLength : String := "maxStringValueLengthReached"

/-- `ErrInvalidJSON = errors.New("jtp.MalformedJSON")` from jtp.go line 24. -/
def ErrInvalidJSON : String := "jtp.MalformedJSON"

/-- The string built by `fmt.Errorf("jtp.%s.Max-[%d]-Allowed.Found-[%d]", label, m, n)`. -/
def fmtLimitErr (label : String) (maxAllowed found : Int) : String :=
  "jtp." ++ label ++ ".Max-[" ++ toString maxAllowed ++ "]-Allowed.Found-[" ++
    toString found ++ "]"

/-- The `Verify` configuration struct (jtp.go lines 48-67); Go zero values
as defaults.  Fields unreachable from outside the package can only be set
together with their maxima through the `WithMax...` options. -/
structure Verify where
  MaxArrayElementCount : Int := 0
  arrayEntryCountEnabled : Bool := false
  JSONContainerDepth : Int := 0
  jsonContainerDepthEnabled : Bool := false
  ObjectEntryCount : Int := 0
  objectEntryCountEnabled : Bool := false
  ObjectKeyLength : Int := 0
  objectKeyLengthEnabled : Bool := false
  StringValueLen : Int := 0
  stringLenEnabled : Bool := false
deriving Repr, DecidableEq

/-- `WithMaxArrayElementCount` option (jtp.go lines 87-100). -/
def WithMaxArrayElementCount (l : Int) (v : Verify) : Except String Verify :=
  if l = 0 then .ok v
  else if l < 0 then .error "jtp: max array element count cannot be negative"
  else .ok { v with MaxArrayElementCount := l, arrayEntryCountEnabled := true }

/-- `WithMaxContainerDepth` option (jtp.go lines 106-119). -/
def WithMaxContainerDepth (l : Int) (v : Verify) : Except String Verify :=
  if l = 0 then .ok v
  else if l < 0 then .error "jtp: max Container depth cannot be negative"
  else .ok { v with JSONContainerDepth := l, jsonContainerDepthEnabled := true }

/-- `WithMaxObjectKeyLength` option (jtp.go lines 125-138). -/
def WithMaxObjectKeyLength (l : Int) (v : Verify) : Except String Verify :=
  if l = 0 then .ok v
  else if l < 0 then .error "jtp: max object key length cannot be negative"
  else .ok { v with ObjectKeyLength := l, objectKeyLengthEnabled := true }

/-- `WithMaxStringLength` option (jtp.go lines 144-157). -/
def WithMaxStringLength (l : Int) (v : Verify) : Except String Verify :=
  if l = 0 then .ok v
  else if l < 0 then .error "jtp: max string length cannot be negative"
  else .ok { v with StringValueLen := l, stringLenEnabled := true }

/-- `WithMaxObjectEntryCount` option (jtp.go lines 163-176). -/
def WithMaxObjectEntryCount (l : Int) (v : Verify) : Except String Verify :=
  if l = 0 then .ok v
  else if l < 0 then .error "jtp: max array element count cannot be negative"
  else .ok { v with ObjectEntryCount := l, objectEntryCountEnabled := true }

/-! ## UTF-8 rune counting (Go `unicode/utf8.RuneCount`) -/

/-- Decoding information from Go's `utf8.first` table: for a leading byte,
`none` when the byte cannot start an encoded rune (`xx`), otherwise the
sequence size and the accepted range for the second byte. -/
def utf8First (c : Nat) : Option (Nat × Nat × Nat) :=
  if 194 ≤ c ∧ c ≤ 223 then some (2, 128, 191)
  else if c = 224 then some (3, 160, 191)
  else if 225 ≤ c ∧ c ≤ 236 then some (3, 128, 191)
  else if c = 237 then some (3, 128, 159)
  else if 238 ≤ c ∧ c ≤ 239 then some (3, 128, 191)
  else if c = 240 then some (4, 144, 191)
  else if 241 ≤ c ∧ c ≤ 243 then some (4, 128, 191)
  else if c = 244 then some (4, 128, 143)
  else none

/-- The size correction of `utf8.RuneCount`'s body: the second byte is
checked against the accept range, later bytes against `locb`/`hicb`
(0x80..0xBF); an out-of-range byte shrinks the step to one byte. -/
def runeSize (p : List Nat) (i : Nat) (size : Nat) (lo hi : Nat) : Nat :=
  if p.getD (i+1) 0 < lo ∨ hi < p.getD (i+1) 0 then 1
  else if size = 2 then size
  else if p.getD (i+2) 0 < 128 ∨ 191 < p.getD (i+2) 0 then 1
  else if size = 3 then size
  else if p.getD (i+3) 0 < 128 ∨ 191 < p.getD (i+3) 0 then 1
  else size

/-- The loop of `utf8.RuneCount`.  Each iteration advances the index by
at least one byte, so the wrapper's fuel of `p.length + 1` (one unit per
iteration) is never exhausted; fuel exists only to make the recursion
structural. -/
def runeCountLoopF (fuel : Nat) (p : List Nat) (i n : Nat) : Nat :=
  match fuel with
  | 0 => n
  | fuel + 1 =>
    if i < p.length then
      if p.getD i 0 < 128 then runeCountLoopF fuel p (i+1) (n+1)
      else
        match utf8First (p.getD i 0) with
        | none => runeCountLoopF fuel p (i+1) (n+1)
        | some (size, lo, hi) =>
          if i + size > p.length then runeCountLoopF fuel p (i+1) (n+1)
          else runeCountLoopF fuel p (i + runeSize p i size lo hi) (n+1)
    else n

/-- `utf8.RuneCount`. -/
def utf8RuneCount (p : List Nat) : Nat := runeCountLoopF (p.length + 1) p 0 0

/-! ## Simple scanners -/

/-- `validateStringLength` (jtp.go lines 178-192): rune count of the byte
span `data[startIndex:endIndex]` minus 2, checked against the maximum. -/
def validateStringLength (data : List Nat) (startIndex endIndex : Nat)
    (enabled : Bool) (maxAllowed : Int) (strType : String) : Option String :=
  if enabled = true ∧
      (utf8RuneCount ((data.take endIndex).drop startIndex) : Int) - 2 > maxAllowed then
    some (fmtLimitErr strType maxAllowed
      ((utf8RuneCount ((data.take endIndex).drop startIndex) : Int) - 2))
  else none

/-- Hexadecimal-digit test from the `u` escape validation. -/
def isHexDigit (c : Nat) : Bool :=
  (48 ≤ c ∧ c ≤ 57) ∨ (97 ≤ c ∧ c ≤ 102) ∨ (65 ≤ c ∧ c ≤ 70)

/-- The loop of `isValidateString` (jtp.go lines 195-228).  `i` is the
position just past the opening quote; on success returns the position
just past the closing quote.  The four-round hex loop of the `u` escape
is unrolled.  Each iteration advances the index, so the wrapper's fuel of
`data.length + 1` is never exhausted. -/
def isValidateStringF (fuel : Nat) (data : List Nat) (i : Nat) : Nat × Bool :=
  match fuel with
  | 0 => (i, false)
  | fuel + 1 =>
    if i < data.length then
      if data.getD i 0 < 32 then (i, false)
      else if data.getD i 0 = 92 then
        if i + 1 = data.length then (i + 1, false)
        else
          if data.getD (i+1) 0 = 34 ∨ data.getD (i+1) 0 = 92 ∨ data.getD (i+1) 0 = 47 ∨
              data.getD (i+1) 0 = 98 ∨ data.getD (i+1) 0 = 102 ∨ data.getD (i+1) 0 = 110 ∨
              data.getD (i+1) 0 = 114 ∨ data.getD (i+1) 0 = 116 then
            isValidateStringF fuel data (i + 2)
          else if data.getD (i+1) 0 = 117 then
            if i + 2 ≥ data.length then (i + 2, false)
            else if isHexDigit (data.getD (i+2) 0) = false then (i + 2, false)
            else if i + 3 ≥ data.length then (i + 3, false)
            else if isHexDigit (data.getD (i+3) 0) = false then (i + 3, false)
            else if i + 4 ≥ data.length then (i + 4, false)
            else if isHexDigit (data.getD (i+4) 0) = false then (i + 4, false)
            else if i + 5 ≥ data.length then (i + 5, false)
            else if isHexDigit (data.getD (i+5) 0) = false then (i + 5, false)
            else isValidateStringF fuel data (i + 6)
          else (i + 1, false)
      else if data.getD i 0 = 34 then (i + 1, true)
      else isValidateStringF fuel data (i + 1)
    else (i, false)

/-- `isValidateString` (jtp.go lines 195-228). -/
def isValidateString (data : List Nat) (i : Nat) : Nat × Bool :=
  isValidateStringF (data.length + 1) data i

/-- `isValidTrue` (jtp.go lines 403-409). -/
def isValidTrue (data : List Nat) (i : Nat) : Nat × Bool :=
  if i + 3 ≤ data.length ∧ data.getD i 0 = 114 ∧ data.getD (i+1) 0 = 117 ∧
      data.getD (i+2) 0 = 101 then (i + 3, true)
  else (i, false)

/-- `isValidFalse` (jtp.go lines 411-417). -/
def isValidFalse (data : List Nat) (i : Nat) : Nat × Bool :=
  if i + 4 ≤ data.length ∧ data.getD i 0 = 97 ∧ data.getD (i+1) 0 = 108 ∧
      data.getD (i+2) 0 = 115 ∧ data.getD (i+3) 0 = 101 then (i + 4, true)
  else (i, false)

/-- `isValidNull` (jtp.go lines 419-425). -/
def isValidNull (data : List Nat) (i : Nat) : Nat × Bool :=
  if i + 3 ≤ data.length ∧ data.getD i 0 = 117 ∧ data.getD (i+1) 0 = 108 ∧
      data.getD (i+2) 0 = 108 then (i + 3, true)
  else (i, false)

/-- The digit-run loops of `isValidNumber` (`for ; i < len(data); i++`
over bytes in `0`..`9`); fuel-indexed loop body. -/
def skipDigitsF (fuel : Nat) (data : List Nat) (i : Nat) : Nat :=
  match fuel with
  | 0 => i
  | fuel + 1 =>
    if i < data.length then
      if 48 ≤ data.getD i 0 ∧ data.getD i 0 ≤ 57 then skipDigitsF fuel data (i+1) else i
    else i

/-- The digit-run loops of `isValidNumber`. -/
def skipDigits (data : List Nat) (i : Nat) : Nat :=
  skipDigitsF (data.length + 1) data i

/-- The digit run after the first exponent digit and the final success
return of `isValidNumber` (jtp.go lines 479-493). -/
def numExpDigits (data : List Nat) (i : Nat) : Nat × Bool :=
  if i = data.length then (i, false)
  else if data.getD i 0 < 48 ∨ 57 < data.getD i 0 then (i, false)
  else (skipDigits data (i+1), true)

/-- The exponent part of `isValidNumber` (jtp.go lines 467-493): `e`/`E`,
an optional sign, then at least one digit. -/
def numExp (data : List Nat) (i : Nat) : Nat × Bool :=
  if data.getD i 0 = 101 ∨ data.getD i 0 = 69 then
    if i + 1 = data.length then (i + 1, false)
    else
      numExpDigits data
        (if data.getD (i+1) 0 = 43 ∨ data.getD (i+1) 0 = 45 then i + 2 else i + 1)
  else (i, true)

/-- End-of-input check between the fraction digits and the exponent part
(jtp.go lines 468-470). -/
def numAfterFrac (data : List Nat) (i : Nat) : Nat × Bool :=
  if i = data.length then (i, true) else numExp data i

/-- The fraction part of `isValidNumber` (jtp.go lines 447-466): `.`
followed by at least one digit, falling through to the exponent part. -/
def numFrac (data : List Nat) (i : Nat) : Nat × Bool :=
  if data.getD i 0 = 46 then
    if i + 1 = data.length then (i + 1, false)
    else if data.getD (i+1) 0 < 48 ∨ 57 < data.getD (i+1) 0 then (i + 1, false)
    else numAfterFrac data (skipDigits data (i+2))
  else numExp data i

/-- End-of-input check between the integer part and the fraction part
(jtp.go lines 448-450). -/
def numAfterInt (data : List Nat) (i : Nat) : Nat × Bool :=
  if i = data.length then (i, true) else numFrac data i

/-- The integer part of `isValidNumber` (jtp.go lines 434-446): a single
`0`, or a (possibly empty) digit run. -/
def numIntPart (data : List Nat) (i : Nat) : Nat × Bool :=
  if i = data.length then (i, false)
  else numAfterInt data (if data.getD i 0 = 48 then i + 1 else skipDigits data i)

/-- `isValidNumber` (jtp.go lines 427-494).  Called with the position just
past the dispatched first byte; the body starts with `i--`, then consumes
an optional `-` sign before the integer part. -/
def isValidNumber (data : List Nat) (i0 : Nat) : Nat × Bool :=
  numIntPart data (if data.getD (i0 - 1) 0 = 45 then (i0 - 1) + 1 else i0 - 1)

/-- The loop of `isValidComma` (jtp.go lines 496-510): skips whitespace
and accepts a comma or the closing byte `endb`, returning its position. -/
def isValidCommaF (fuel : Nat) (data : List Nat) (i : Nat) (endb : Nat) : Nat × Bool :=
  match fuel with
  | 0 => (i, false)
  | fuel + 1 =>
    if i < data.length then
      if data.getD i 0 = 32 ∨ data.getD i 0 = 9 ∨ data.getD i 0 = 10 ∨ data.getD i 0 = 13 then
        isValidCommaF fuel data (i+1) endb
      else if data.getD i 0 = 44 then (i, true)
      else if data.getD i 0 = endb then (i, true)
      else (i, false)
    else (i, false)

/-- `isValidComma` (jtp.go lines 496-510). -/
def isValidComma (data : List Nat) (i : Nat) (endb : Nat) : Nat × Bool :=
  isValidCommaF (data.length + 1) data i endb

/-- The loop of `isValidColon` (jtp.go lines 512-524). -/
def isValidColonF (fuel : Nat) (data : List Nat) (i : Nat) : Nat × Bool :=
  match fuel with
  | 0 => (i, false)
  | fuel + 1 =>
    if i < data.length then
      if data.getD i 0 = 32 ∨ data.getD i 0 = 9 ∨ data.getD i 0 = 10 ∨ data.getD i 0 = 13 then
        isValidColonF fuel data (i+1)
      else if data.getD i 0 = 58 then (i + 1, true)
      else (i, false)
    else (i, false)

/-- `isValidColon` (jtp.go lines 512-524). -/
def isValidColon (data : List Nat) (i : Nat) : Nat × Bool :=
  isValidColonF (data.length + 1) data i

/-! ## The mutually recursive core: value dispatcher and container validators

The Go functions `validany`, `isValidArray` and `isValidObject`
(jtp.go lines 230-399) mutually recurse and mutate a shared depth
counter through a pointer.  Each is modelled as a function returning a
`Res` record carrying the out-index, the `ok` flag, the error and the
(threaded) depth counter.  Their interior `for` loops and the `goto key`
block are split into named loop functions; every recursive call consumes
one unit of fuel, and exhausted fuel yields the failure value
`⟨i, false, none, depth⟩` (never reached for the fuel supplied by the
driver). -/

/-- Result quadruple `(outi, ok, err)` plus the shared depth counter. -/
structure Res where
  outi : Nat
  ok : Bool
  err : Option String
  depth : Int
deriving Repr, DecidableEq

/-- Call descriptor for the mutually recursive core: one constructor per
Go function or interior loop, carrying that function's local state.
(Mutual recursion is expressed through a single structurally recursive
interpreter so that the kernel can evaluate it.) -/
inductive Call where
  | anyV (i : Nat) (depth : Int)
  | anyLoop (i : Nat) (depth : Int)
  | arrV (i : Nat) (depth : Int)
  | arrLoop (i : Nat) (depth : Int)
  | arrElems (i : Nat) (depth : Int) (child : Int) (err0 : Option String)
  | objV (i : Nat) (depth : Int)
  | objLoop (i : Nat) (depth : Int)
  | objMember (i : Nat) (depth : Int) (entries : Int)
  | objSeek (i : Nat) (depth : Int) (entries : Int)
deriving Repr, DecidableEq

/-- The cursor position of a call descriptor. -/
def Call.pos : Call → Nat
  | .anyV i _ => i
  | .anyLoop i _ => i
  | .arrV i _ => i
  | .arrLoop i _ => i
  | .arrElems i _ _ _ => i
  | .objV i _ => i
  | .objLoop i _ => i
  | .objMember i _ _ => i
  | .objSeek i _ _ => i

/-- The depth-counter value of a call descriptor. -/
def Call.dep : Call → Int
  | .anyV _ d => d
  | .anyLoop _ d => d
  | .arrV _ d => d
  | .arrLoop _ d => d
  | .arrElems _ d _ _ => d
  | .objV _ d => d
  | .objLoop _ d => d
  | .objMember _ d _ => d
  | .objSeek _ d _ => d

/-- The mutually recursive core of jtp.go (lines 230-399): `validany`
with its dispatch loop, `isValidArray` with its outer and element loops,
and `isValidObject` with its outer loop, `key:` block and member-seeking
loop.  Every recursive call consumes one unit of fuel; exhausted fuel
yields the failure value `⟨i, false, none, depth⟩` and is never reached
for the fuel the driver supplies. -/
def core (data : List Nat) (v : Verify) : Nat → Call → Res
  | 0, c => ⟨c.pos, false, none, c.dep⟩
  | fuel + 1, .anyV i depth =>
    -- `validany` (jtp.go lines 358-399): depth guard, then the dispatch loop
    if v.jsonContainerDepthEnabled = true ∧ v.JSONContainerDepth < depth then
      ⟨i, false, some (fmtLimitErr "maxContainerDepthReached" v.JSONContainerDepth depth),
        depth⟩
    else core data v fuel (.anyLoop i depth)
  | fuel + 1, .anyLoop i depth =>
    -- the `for` loop of `validany` (jtp.go lines 366-398); the `case 'f'`
    -- arm computes `isValidFalse` but, unlike every sibling arm, has no
    -- `return`, so its result is discarded and the loop continues
    if i < data.length then
      if data.getD i 0 = 32 ∨ data.getD i 0 = 9 ∨ data.getD i 0 = 10 ∨ data.getD i 0 = 13 then
        core data v fuel (.anyLoop (i+1) depth)
      else if data.getD i 0 = 123 then core data v fuel (.objV (i+1) (depth + 1))
      else if data.getD i 0 = 91 then core data v fuel (.arrV (i+1) (depth + 1))
      else if data.getD i 0 = 34 then
        ⟨(isValidateString data (i+1)).1, (isValidateString data (i+1)).2,
          validateStringLength data i (isValidateString data (i+1)).1 v.stringLenEnabled
            v.StringValueLen stringValueLength, depth⟩
      else if data.getD i 0 = 45 ∨ (48 ≤ data.getD i 0 ∧ data.getD i 0 ≤ 57) then
        ⟨(isValidNumber data (i+1)).1, (isValidNumber data (i+1)).2, none, depth⟩
      else if data.getD i 0 = 116 then
        ⟨(isValidTrue data (i+1)).1, (isValidTrue data (i+1)).2, none, depth⟩
      else if data.getD i 0 = 102 then
        core data v fuel (.anyLoop (i+1) depth)
      else if data.getD i 0 = 110 then
        ⟨(isValidNull data (i+1)).1, (isValidNull data (i+1)).2, none, depth⟩
      else ⟨i, false, none, depth⟩
    else ⟨i, false, none, depth⟩
  | fuel + 1, .arrV i depth =>
    -- `isValidArray` (jtp.go lines 230-273): depth guard, then the outer loop
    if v.jsonContainerDepthEnabled = true ∧ v.JSONContainerDepth < depth then
      ⟨i, false, some (fmtLimitErr "maxContainerDepthReached" v.JSONContainerDepth depth),
        depth⟩
    else core data v fuel (.arrLoop i depth)
  | fuel + 1, .arrLoop i depth =>
    -- the outer `for` loop of `isValidArray` (jtp.go lines 238-271):
    -- whitespace continues, `]` closes, anything else enters the element
    -- loop with a fresh `child` counter
    if i < data.length then
      if data.getD i 0 = 32 ∨ data.getD i 0 = 9 ∨ data.getD i 0 = 10 ∨ data.getD i 0 = 13 then
        core data v fuel (.arrLoop (i+1) depth)
      else if data.getD i 0 = 93 then ⟨i + 1, true, none, depth - 1⟩
      else core data v fuel (.arrElems i depth 0 none)
    else ⟨i, false, none, depth⟩
  | fuel + 1, .arrElems i depth child err0 =>
    -- the element loop of `isValidArray` (jtp.go lines 242-264); `err0`
    -- is the value of the named return `err` on entry to an iteration:
    -- it is returned when the loop runs off the end of the input (then
    -- the outer loop also terminates, after one more `i++`)
    if i < data.length then
      if (core data v fuel (.anyV i depth)).ok = false then
        ⟨(core data v fuel (.anyV i depth)).outi, false,
          (core data v fuel (.anyV i depth)).err, (core data v fuel (.anyV i depth)).depth⟩
      else
        if (isValidComma data (core data v fuel (.anyV i depth)).outi 93).2 = false then
          ⟨(isValidComma data (core data v fuel (.anyV i depth)).outi 93).1, false,
            (core data v fuel (.anyV i depth)).err, (core data v fuel (.anyV i depth)).depth⟩
        else
          if v.arrayEntryCountEnabled = true ∧ v.MaxArrayElementCount < child + 1 then
            ⟨(isValidComma data (core data v fuel (.anyV i depth)).outi 93).1, false,
              some (fmtLimitErr "maxArrayElementCountReached" v.MaxArrayElementCount
                (child + 1)),
              (core data v fuel (.anyV i depth)).depth⟩
          else if data.getD (isValidComma data (core data v fuel (.anyV i depth)).outi 93).1 0
              = 93 then
            ⟨(isValidComma data (core data v fuel (.anyV i depth)).outi 93).1 + 1, true,
              (core data v fuel (.anyV i depth)).err,
              (core data v fuel (.anyV i depth)).depth - 1⟩
          else
            core data v fuel
              (.arrElems ((isValidComma data (core data v fuel (.anyV i depth)).outi 93).1 + 1)
                (core data v fuel (.anyV i depth)).depth (child + 1)
                (core data v fuel (.anyV i depth)).err)
    else ⟨i + 1, false, err0, depth⟩
  | fuel + 1, .objV i depth =>
    -- `isValidObject` (jtp.go lines 275-356): depth guard, then the outer loop
    if v.jsonContainerDepthEnabled = true ∧ v.JSONContainerDepth < depth then
      ⟨i, false, some (fmtLimitErr "maxContainerDepthReached" v.JSONContainerDepth depth),
        depth⟩
    else core data v fuel (.objLoop i depth)
  | fuel + 1, .objLoop i depth =>
    -- the outer `for` loop of `isValidObject` (jtp.go lines 283-355):
    -- whitespace continues, `}` closes, `"` enters the member block with
    -- a fresh `entries` counter, anything else fails
    if i < data.length then
      if data.getD i 0 = 32 ∨ data.getD i 0 = 9 ∨ data.getD i 0 = 10 ∨ data.getD i 0 = 13 then
        core data v fuel (.objLoop (i+1) depth)
      else if data.getD i 0 = 125 then ⟨i + 1, true, none, depth - 1⟩
      else if data.getD i 0 = 34 then core data v fuel (.objMember i depth 0)
      else ⟨i, false, none, depth⟩
    else ⟨i, false, none, depth⟩
  | fuel + 1, .objMember i depth entries =>
    -- the `key:` block of `isValidObject` (jtp.go lines 295-340): one
    -- member (key string, entry count, key length, colon, value, comma
    -- or close), with `i` at the opening quote of the key
    if (isValidateString data (i+1)).2 = false then
      ⟨(isValidateString data (i+1)).1, false, none, depth⟩
    else
      if v.objectEntryCountEnabled = true ∧ v.ObjectEntryCount < entries + 1 then
        ⟨(isValidateString data (i+1)).1, false,
          some (fmtLimitErr "maxObjectEntryCountReached" v.ObjectEntryCount (entries + 1)),
          depth⟩
      else
        match validateStringLength data i (isValidateString data (i+1)).1
            v.objectKeyLengthEnabled v.ObjectKeyLength objectKeyValueLength with
        | some e => ⟨(isValidateString data (i+1)).1, false, some e, depth⟩
        | none =>
          if (isValidColon data (isValidateString data (i+1)).1).2 = false then
            ⟨(isValidColon data (isValidateString data (i+1)).1).1, false, none, depth⟩
          else
            if (core data v fuel
                  (.anyV (isValidColon data (isValidateString data (i+1)).1).1 depth)).ok
                = false ∨
                (core data v fuel
                  (.anyV (isValidColon data (isValidateString data (i+1)).1).1 depth)).err
                ≠ none then
              ⟨(core data v fuel
                  (.anyV (isValidColon data (isValidateString data (i+1)).1).1 depth)).outi,
                false,
                (core data v fuel
                  (.anyV (isValidColon data (isValidateString data (i+1)).1).1 depth)).err,
                (core data v fuel
                  (.anyV (isValidColon data (isValidateString data (i+1)).1).1 depth)).depth⟩
            else
              if (isValidComma data
                    (core data v fuel
                      (.anyV (isValidColon data (isValidateString data (i+1)).1).1 depth)).outi
                    125).2 = false then
                ⟨(isValidComma data
                    (core data v fuel
                      (.anyV (isValidColon data (isValidateString data (i+1)).1).1 depth)).outi
                    125).1, false, none,
                  (core data v fuel
                    (.anyV (isValidColon data (isValidateString data (i+1)).1).1 depth)).depth⟩
              else if data.getD
                  (isValidComma data
                    (core data v fuel
                      (.anyV (isValidColon data (isValidateString data (i+1)).1).1 depth)).outi
                    125).1 0 = 125 then
                ⟨(isValidComma data
                    (core data v fuel
                      (.anyV (isValidColon data (isValidateString data (i+1)).1).1 depth)).outi
                    125).1 + 1, true, none,
                  (core data v fuel
                    (.anyV (isValidColon data (isValidateString data (i+1)).1).1 depth)).depth
                    - 1⟩
              else
                core data v fuel
                  (.objSeek
                    ((isValidComma data
                      (core data v fuel
                        (.anyV (isValidColon data (isValidateString data (i+1)).1).1 depth)).outi
                      125).1 + 1)
                    (core data v fuel
                      (.anyV (isValidColon data (isValidateString data (i+1)).1).1 depth)).depth
                    (entries + 1))
  | fuel + 1, .objSeek i depth entries =>
    -- the inner loop of `isValidObject` after a member comma (jtp.go
    -- lines 342-352): skips whitespace until the next `"` (`goto key`)
    if i < data.length then
      if data.getD i 0 = 32 ∨ data.getD i 0 = 9 ∨ data.getD i 0 = 10 ∨ data.getD i 0 = 13 then
        core data v fuel (.objSeek (i+1) depth entries)
      else if data.getD i 0 = 34 then core data v fuel (.objMember i depth entries)
      else ⟨i, false, none, depth⟩
    else ⟨i, false, none, depth⟩

/-- `validany` (jtp.go lines 358-399). -/
def validany (fuel : Nat) (data : List Nat) (i : Nat) (depth : Int)
    (v : Verify) : Res := core data v fuel (.anyV i depth)

/-- The dispatch loop of `validany`. -/
def vloop (fuel : Nat) (data : List Nat) (i : Nat) (depth : Int)
    (v : Verify) : Res := core data v fuel (.anyLoop i depth)

/-- `isValidArray` (jtp.go lines 230-273). -/
def isValidArray (fuel : Nat) (data : List Nat) (i : Nat) (depth : Int)
    (v : Verify) : Res := core data v fuel (.arrV i depth)

/-- The outer loop of `isValidArray`. -/
def aloop (fuel : Nat) (data : List Nat) (i : Nat) (depth : Int)
    (v : Verify) : Res := core data v fuel (.arrLoop i depth)

/-- The element loop of `isValidArray`. -/
def aelems (fuel : Nat) (data : List Nat) (i : Nat) (depth : Int)
    (v : Verify) (child : Int) (err0 : Option String) : Res :=
  core data v fuel (.arrElems i depth child err0)

/-- `isValidObject` (jtp.go lines 275-356). -/
def isValidObject (fuel : Nat) (data : List Nat) (i : Nat) (depth : Int)
    (v : Verify) : Res := core data v fuel (.objV i depth)

/-- The outer loop of `isValidObject`. -/
def oloop (fuel : Nat) (data : List Nat) (i : Nat) (depth : Int)
    (v : Verify) : Res := core data v fuel (.objLoop i depth)

/-- The `key:` block of `isValidObject`. -/
def oMember (fuel : Nat) (data : List Nat) (i : Nat) (depth : Int)
    (v : Verify) (entries : Int) : Res := core data v fuel (.objMember i depth entries)

/-- The member-seeking loop of `isValidObject`. -/
def oSeek (fuel : Nat) (data : List Nat) (i : Nat) (depth : Int)
    (v : Verify) (entries : Int) : Res := core data v fuel (.objSeek i depth entries)

/-- Insignificant-whitespace test (space, tab, newline, carriage return). -/
def isWSb (c : Nat) : Bool := c == 32 || c == 9 || c == 10 || c == 13

/-- The leading-whitespace loop of `isValidJSON` (jtp.go lines 527 and
544-545), also the spec's "skip insignificant whitespace": index of the
first non-whitespace byte at or after `i` (`data.length` when none
exists). -/
def skipWSF (fuel : Nat) (data : List Nat) (i : Nat) : Nat :=
  match fuel with
  | 0 => i
  | fuel + 1 =>
    if i < data.length then
      if isWSb (data.getD i 0) then skipWSF fuel data (i+1) else i
    else i

/-- Wrapper for `skipWSF` with always-sufficient fuel. -/
def skipWS (data : List Nat) (i : Nat) : Nat := skipWSF (data.length + 1) data i

/-- The trailing loop of `isValidJSON` (jtp.go lines 535-542): skips
whitespace; `true` iff only whitespace remains up to end of input. -/
def jtrailF (fuel : Nat) (data : List Nat) (i : Nat) : Nat × Bool :=
  match fuel with
  | 0 => (i, false)
  | fuel + 1 =>
    if i < data.length then
      if data.getD i 0 = 32 ∨ data.getD i 0 = 9 ∨ data.getD i 0 = 10 ∨ data.getD i 0 = 13 then
        jtrailF fuel data (i+1)
      else (i, false)
    else (i, true)

/-- Wrapper for `jtrailF` with always-sufficient fuel. -/
def jtrail (data : List Nat) (i : Nat) : Nat × Bool := jtrailF (data.length + 1) data i

/-- `isValidJSON` (jtp.go lines 526-549): the outer loop skips leading
whitespace (modelled by `skipWS`) and either runs off the end of the
input or dispatches exactly one value to `validany`, after which only
whitespace may remain (the trailing loop, modelled by `jtrail`). -/
def isValidJSON (fuel : Nat) (data : List Nat) (i : Nat) (depth : Int)
    (v : Verify) : Res :=
  if skipWS data i < data.length then
    if (validany fuel data (skipWS data i) depth v).ok = false ∨
        (validany fuel data (skipWS data i) depth v).err ≠ none then
      ⟨(validany fuel data (skipWS data i) depth v).outi, false,
        (validany fuel data (skipWS data i) depth v).err,
        (validany fuel data (skipWS data i) depth v).depth⟩
    else
      ⟨(jtrail data (validany fuel data (skipWS data i) depth v).outi).1,
        (jtrail data (validany fuel data (skipWS data i) depth v).outi).2,
        (validany fuel data (skipWS data i) depth v).err,
        (validany fuel data (skipWS data i) depth v).depth⟩
  else ⟨skipWS data i, false, none, depth⟩

/-- Fuel supplied by the public entry point: sufficient for any input,
since every chain of recursive calls that does not consume an input byte
has length at most four. -/
def driverFuel (data : List Nat) : Nat := 4 * data.length + 8

/-- `VerifyBytes` (jtp.go lines 555-562). -/
def VerifyBytes (v : Verify) (json : List Nat) : Bool × Option String :=
  ((isValidJSON (driverFuel json) json 0 0 v).ok,
    if (isValidJSON (driverFuel json) json 0 0 v).err = none ∧
        (isValidJSON (driverFuel json) json 0 0 v).ok = false then
      some ErrInvalidJSON
    else (isValidJSON (driverFuel json) json 0 0 v).err)

/-- `VerifyString` (jtp.go lines 568-570): Go's `[]byte(json)` conversion
is the identity on the underlying UTF-8 bytes, so the model forwards the
byte list unchanged. -/
def VerifyString (v : Verify) (json : List Nat) : Bool × Option String :=
  VerifyBytes v json

/-! ## Document families and the spec-side driver contract -/

/-- Spec-modelled contract of the top-level driver (spec section 4.8 /
section 7): skip insignificant whitespace; validate exactly one value via
the value dispatcher; require only whitespace up to end of input; classify
a scan failure that carries no specific error as the malformed-JSON
sentinel; return a limit error unchanged. -/
def topSpec (v : Verify) (data : List Nat) : Bool × Option String :=
  if skipWS data 0 = data.length then (false, some ErrInvalidJSON)
  else
    if (validany (driverFuel data) data (skipWS data 0) 0 v).ok = true ∧
        (validany (driverFuel data) data (skipWS data 0) 0 v).err = none then
      if (data.drop (validany (driverFuel data) data (skipWS data 0) 0 v).outi).all isWSb then
        (true, none)
      else (false, some ErrInvalidJSON)
    else
      if (validany (driverFuel data) data (skipWS data 0) 0 v).err = none then
        (false, some ErrInvalidJSON)
      else (false, (validany (driverFuel data) data (skipWS data 0) 0 v).err)

/-- `k` nested arrays around the number `1`: the byte string of
`[`...`[1]`...`]` with `k` brackets on each side. -/
def nestDoc (k : Nat) : List Nat :=
  List.replicate k 91 ++ 49 :: List.replicate k 93

/-- `m` array elements `1` separated by commas. -/
def sepOnes : Nat → List Nat
  | 0 => []
  | 1 => [49]
  | n + 2 => 49 :: 44 :: sepOnes (n + 1)

/-- The array document `[1,1,...,1]` with `m` elements. -/
def arrDoc (m : Nat) : List Nat := 91 :: (sepOnes m ++ [93])

/-- `m` object members `"a":1` separated by commas. -/
def memSeq : Nat → List Nat
  | 0 => []
  | 1 => [34, 97, 34, 58, 49]
  | n + 2 => 34 :: 97 :: 34 :: 58 :: 49 :: 44 :: memSeq (n + 1)

/-- The object document with `m` members `"a":1`. -/
def objDoc (m : Nat) : List Nat := 123 :: (memSeq m ++ [125])

/-- The document consisting of one quoted string of `l` letters `a`. -/
def strDoc (l : Nat) : List Nat := 34 :: (List.replicate l 97 ++ [34])

/-- The object document whose single key has `l` letters `a` and whose
value is `1`. -/
def keyDoc (l : Nat) : List Nat :=
  123 :: 34 :: (List.replicate l 97 ++ [34, 58, 49, 125])

/-- Configuration with only the container-depth limit enabled. -/
def depthOnly (m : Int) : Verify :=
  { JSONContainerDepth := m, jsonContainerDepthEnabled := true }

/-- Configuration with only the string-value-length limit enabled. -/
def strOnly (m : Int) : Verify :=
  { StringValueLen := m, stringLenEnabled := true }

/-- Configuration with only the object-key-length limit enabled. -/
def keyOnly (m : Int) : Verify :=
  { ObjectKeyLength := m, objectKeyLengthEnabled := true }

/-- Configuration with only the array-element-count limit enabled. -/
def arrOnly (m : Int) : Verify :=
  { MaxArrayElementCount := m, arrayEntryCountEnabled := true }

/-- Configuration with only the object-entry-count limit enabled. -/
def entryOnly (m : Int) : Verify :=
  { ObjectEntryCount := m, objectEntryCountEnabled := true }

/-- The five limit-error labels of jtp.go. -/
def LimitLabel (label : String) : Prop :=
  label = stringValueLength ∨ label = "maxArrayElementCountReached" ∨
  label = objectKeyValueLength ∨ label = "maxContainerDepthReached" ∨
  label = "maxObjectEntryCountReached"

/-- A verbatim limit-error message. -/
def LimitErrP (s : String) : Prop :=
  ∃ label m n, LimitLabel label ∧ s = fmtLimitErr label m n

/-- An error value that is `nil` or a limit error. -/
def ErrOk (e : Option String) : Prop := ∀ s, e = some s → LimitErrP s

/-! ## Infrastructure lemmas -/

theorem isWSb_iff (c : Nat) :
    isWSb c = true ↔ (c = 32 ∨ c = 9 ∨ c = 10 ∨ c = 13) := by
  simp [isWSb, or_assoc]

theorem bool_true_of_not_false {b : Bool} (h : ¬ b = false) : b = true := by
  cases b <;> simp_all

theorem getD_drop (data : List Nat) {l : List Nat} {i : Nat} (h : data.drop i = l)
    (k : Nat) : data.getD (i + k) 0 = l.getD k 0 := by
  subst h
  simp [List.getD_eq_getElem?_getD, List.getElem?_drop]

theorem getD_at (data : List Nat) {b : Nat} {t : List Nat} {i : Nat}
    (h : data.drop i = b :: t) : data.getD i 0 = b := by
  have h0 := getD_drop data h 0
  simpa using h0

theorem drop_succ {data : List Nat} {b : Nat} {t : List Nat} {i : Nat}
    (h : data.drop i = b :: t) : data.drop (i + 1) = t := by
  have h1 : data.drop (i + 1) = (data.drop i).drop 1 := by
    rw [List.drop_drop]
  rw [h1, h]
  rfl

theorem lt_of_drop_cons {data : List Nat} {b : Nat} {t : List Nat} {i : Nat}
    (h : data.drop i = b :: t) : i < data.length := by
  by_contra hc
  rw [List.drop_eq_nil_iff.mpr (by omega)] at h
  exact absurd h (by simp)

theorem len_of_drop {data l : List Nat} {i : Nat} (h : data.drop i = l)
    (hi : i ≤ data.length) : data.length = i + l.length := by
  have h1 := congrArg List.length h
  rw [List.length_drop] at h1
  omega

/-! ## The error-message shape and the depth-counter discipline

One mutual induction over the fuel establishes, for every core function,
that (a) a successful run leaves the depth counter where the function's
contract says (unchanged for the value dispatcher, decremented once for a
container validator), and (b) every error ever produced is a limit error
built by `fmtLimitErr` from one of the five labels. -/

theorem lblStr : LimitLabel stringValueLength := Or.inl rfl
theorem lblArr : LimitLabel "maxArrayElementCountReached" := Or.inr (Or.inl rfl)
theorem lblKey : LimitLabel objectKeyValueLength := Or.inr (Or.inr (Or.inl rfl))
theorem lblDepth : LimitLabel "maxContainerDepthReached" :=
  Or.inr (Or.inr (Or.inr (Or.inl rfl)))
theorem lblEntry : LimitLabel "maxObjectEntryCountReached" :=
  Or.inr (Or.inr (Or.inr (Or.inr rfl)))

theorem ErrOk_none : ErrOk none := by
  intro s h
  cases h

theorem ErrOk_some_limit {s : String} (hp : LimitErrP s) : ErrOk (some s) := by
  intro t ht
  injection ht with h
  exact h ▸ hp

theorem limitErrP_mk {label : String} (hl : LimitLabel label) (m n : Int) :
    LimitErrP (fmtLimitErr label m n) := ⟨label, m, n, hl, rfl⟩

theorem ErrOk_vsl (data : List Nat) (s e : Nat) (en : Bool) (m : Int)
    {t : String} (ht : LimitLabel t) :
    ErrOk (validateStringLength data s e en m t) := by
  simp only [validateStringLength]
  split
  · exact ErrOk_some_limit (limitErrP_mk ht _ _)
  · exact ErrOk_none

/-- Combined invariant pack for the mutually recursive core: on success
the depth counter is restored (value dispatcher) or decremented exactly
once (container validators); every produced error is a limit error. -/
theorem corePack (fuel : Nat) :
    (∀ data i d v,
      ((validany fuel data i d v).ok = true → (validany fuel data i d v).depth = d) ∧
      ErrOk (validany fuel data i d v).err) ∧
    (∀ data i d v,
      ((vloop fuel data i d v).ok = true → (vloop fuel data i d v).depth = d) ∧
      ErrOk (vloop fuel data i d v).err) ∧
    (∀ data i d v,
      ((isValidArray fuel data i d v).ok = true →
        (isValidArray fuel data i d v).depth = d - 1) ∧
      ErrOk (isValidArray fuel data i d v).err) ∧
    (∀ data i d v,
      ((aloop fuel data i d v).ok = true → (aloop fuel data i d v).depth = d - 1) ∧
      ErrOk (aloop fuel data i d v).err) ∧
    (∀ data i d v c e0, ErrOk e0 →
      ((aelems fuel data i d v c e0).ok = true →
        (aelems fuel data i d v c e0).depth = d - 1) ∧
      ErrOk (aelems fuel data i d v c e0).err) ∧
    (∀ data i d v,
      ((isValidObject fuel data i d v).ok = true →
        (isValidObject fuel data i d v).depth = d - 1) ∧
      ErrOk (isValidObject fuel data i d v).err) ∧
    (∀ data i d v,
      ((oloop fuel data i d v).ok = true → (oloop fuel data i d v).depth = d - 1) ∧
      ErrOk (oloop fuel data i d v).err) ∧
    (∀ data i d v c,
      ((oMember fuel data i d v c).ok = true → (oMember fuel data i d v c).depth = d - 1) ∧
      ErrOk (oMember fuel data i d v c).err) ∧
    (∀ data i d v c,
      ((oSeek fuel data i d v c).ok = true → (oSeek fuel data i d v c).depth = d - 1) ∧
      ErrOk (oSeek fuel data i d v c).err) := by
  induction fuel with
  | zero =>
    refine ⟨?_, ?_, ?_, ?_, ?_, ?_, ?_, ?_, ?_⟩
    · intro data i d v
      exact ⟨fun h => by simp [validany, core] at h, by simp only [validany, core]; exact ErrOk_none⟩
    · intro data i d v
      exact ⟨fun h => by simp [vloop, core] at h, by simp only [vloop, core]; exact ErrOk_none⟩
    · intro data i d v
      exact ⟨fun h => by simp [isValidArray, core] at h,
        by simp only [isValidArray, core]; exact ErrOk_none⟩
    · intro data i d v
      exact ⟨fun h => by simp [aloop, core] at h, by simp only [aloop, core]; exact ErrOk_none⟩
    · intro data i d v c e0 he0
      exact ⟨fun h => by simp [aelems, core] at h, by simp only [aelems, core]; exact ErrOk_none⟩
    · intro data i d v
      exact ⟨fun h => by simp [isValidObject, core] at h,
        by simp only [isValidObject, core]; exact ErrOk_none⟩
    · intro data i d v
      exact ⟨fun h => by simp [oloop, core] at h, by simp only [oloop, core]; exact ErrOk_none⟩
    · intro data i d v c
      exact ⟨fun h => by simp [oMember, core] at h, by simp only [oMember, core]; exact ErrOk_none⟩
    · intro data i d v c
      exact ⟨fun h => by simp [oSeek, core] at h, by simp only [oSeek, core]; exact ErrOk_none⟩
  | succ fuel ih =>
    obtain ⟨ihv, ihvl, iha, ihal, ihae, iho, ihol, ihom, ihos⟩ := ih
    refine ⟨?_, ?_, ?_, ?_, ?_, ?_, ?_, ?_, ?_⟩
    · -- validany
      intro data i d v
      simp only [validany, core]
      split
      · exact ⟨fun h => by simp at h,
          ErrOk_some_limit (limitErrP_mk lblDepth _ _)⟩
      · exact ihvl data i d v
    · -- vloop
      intro data i d v
      simp only [vloop, core]
      split
      · split_ifs with h1 h2 h3 h4 h5 h6 h7 h8
        · exact ihvl data (i+1) d v
        · refine ⟨fun h => ?_, (iho data (i+1) (d+1) v).2⟩
          have h9 := (iho data (i+1) (d+1) v).1 h
          simp only [isValidObject] at h9
          omega
        · refine ⟨fun h => ?_, (iha data (i+1) (d+1) v).2⟩
          have h9 := (iha data (i+1) (d+1) v).1 h
          simp only [isValidArray] at h9
          omega
        · exact ⟨fun h => rfl, ErrOk_vsl _ _ _ _ _ lblStr⟩
        · exact ⟨fun h => rfl, ErrOk_none⟩
        · exact ⟨fun h => rfl, ErrOk_none⟩
        · exact ihvl data (i+1) d v
        · exact ⟨fun h => rfl, ErrOk_none⟩
        · exact ⟨fun h => by simp at h, ErrOk_none⟩
      · exact ⟨fun h => by simp at h, ErrOk_none⟩
    · -- isValidArray
      intro data i d v
      simp only [isValidArray, core]
      split
      · exact ⟨fun h => by simp at h,
          ErrOk_some_limit (limitErrP_mk lblDepth _ _)⟩
      · exact ihal data i d v
    · -- aloop
      intro data i d v
      simp only [aloop, core]
      split
      · split_ifs with h1 h2
        · exact ihal data (i+1) d v
        · exact ⟨fun h => rfl, ErrOk_none⟩
        · exact ihae data i d v 0 none ErrOk_none
      · exact ⟨fun h => by simp at h, ErrOk_none⟩
    · -- aelems
      intro data i d v c e0 he0
      simp only [aelems, core]
      split
      · split_ifs with h1 h2 h3 h4
        · exact ⟨fun h => by simp at h, (ihv data i d v).2⟩
        · exact ⟨fun h => by simp at h, (ihv data i d v).2⟩
        · exact ⟨fun h => by simp at h,
            ErrOk_some_limit (limitErrP_mk lblArr _ _)⟩
        · refine ⟨fun h => ?_, (ihv data i d v).2⟩
          have h9 := (ihv data i d v).1 (bool_true_of_not_false h1)
          simp only [validany] at h9
          simp only [Res.depth]
          omega
        · refine ⟨fun h => ?_,
            (ihae data _ (validany fuel data i d v).depth v (c+1)
              (validany fuel data i d v).err ((ihv data i d v).2)).2⟩
          have h9 := (ihae data _ (validany fuel data i d v).depth v (c+1)
            (validany fuel data i d v).err ((ihv data i d v).2)).1 h
          have h10 := (ihv data i d v).1 (bool_true_of_not_false h1)
          simp only [aelems, validany] at h9 h10
          omega
      · exact ⟨fun h => by simp at h, he0⟩
    · -- isValidObject
      intro data i d v
      simp only [isValidObject, core]
      split
      · exact ⟨fun h => by simp at h,
          ErrOk_some_limit (limitErrP_mk lblDepth _ _)⟩
      · exact ihol data i d v
    · -- oloop
      intro data i d v
      simp only [oloop, core]
      split
      · split_ifs with h1 h2 h3
        · exact ihol data (i+1) d v
        · exact ⟨fun h => rfl, ErrOk_none⟩
        · exact ihom data i d v 0
        · exact ⟨fun h => by simp at h, ErrOk_none⟩
      · exact ⟨fun h => by simp at h, ErrOk_none⟩
    · -- oMember
      intro data i d v c
      simp only [oMember, core]
      split
      · exact ⟨fun h => by simp at h, ErrOk_none⟩
      · split
        · exact ⟨fun h => by simp at h,
            ErrOk_some_limit (limitErrP_mk lblEntry _ _)⟩
        · split
          · next e heq =>
            refine ⟨fun h => by simp at h, ?_⟩
            have h9 := ErrOk_vsl data i (isValidateString data (i + 1)).1
              v.objectKeyLengthEnabled v.ObjectKeyLength lblKey
            rw [heq] at h9
            exact h9
          · split
            · exact ⟨fun h => by simp at h, ErrOk_none⟩
            · split
              · exact ⟨fun h => by simp at h, (ihv data _ d v).2⟩
              · next hno =>
                split
                · exact ⟨fun h => by simp at h, ErrOk_none⟩
                · split
                  · refine ⟨fun h => ?_, ErrOk_none⟩
                    have h9 := (ihv data _ d v).1
                      (bool_true_of_not_false (fun hf => hno (Or.inl hf)))
                    simp only [validany] at h9
                    simp only [Res.depth]
                    omega
                  · refine ⟨fun h => ?_,
                      (ihos data _ (validany fuel data _ d v).depth v _).2⟩
                    have h9 := (ihos data _ (validany fuel data _ d v).depth v _).1 h
                    have h10 := (ihv data _ d v).1
                      (bool_true_of_not_false (fun hf => hno (Or.inl hf)))
                    simp only [oSeek, validany] at h9 h10
                    omega
    · -- oSeek
      intro data i d v c
      simp only [oSeek, core]
      split
      · split_ifs with h1 h2
        · exact ihos data (i+1) d v c
        · exact ihom data i d v c
        · exact ⟨fun h => by simp at h, ErrOk_none⟩
      · exact ⟨fun h => by simp at h, ErrOk_none⟩

/-! ## Driver-level lemmas -/

/-! ## Scanner computation lemmas -/

theorem drop_add_of_drop {data l1 l2 : List Nat} {i : Nat}
    (h : data.drop i = l1 ++ l2) : data.drop (i + l1.length) = l2 := by
  have h1 : (data.drop i).drop l1.length = l2 := by
    rw [h, List.drop_left]
  rw [List.drop_drop] at h1
  exact h1

theorem skipWS_stop0 (data : List Nat) (i : Nat)
    (h : i < data.length → isWSb (data.getD i 0) = false) : skipWS data i = i := by
  simp only [skipWS, skipWSF]
  split
  · next h1 =>
    rw [if_neg (by rw [h h1]; exact Bool.false_ne_true)]
  · rfl

theorem jtrail_at_end (data : List Nat) (i : Nat) (h : ¬ i < data.length) :
    jtrail data i = (i, true) := by
  simp only [jtrail, jtrailF]
  rw [if_neg h]

theorem isValidComma_close (data : List Nat) (j : Nat) (endb : Nat)
    (hj : j < data.length) (hb : data.getD j 0 = endb)
    (hnw : ¬(endb = 32 ∨ endb = 9 ∨ endb = 10 ∨ endb = 13)) (hn44 : endb ≠ 44) :
    isValidComma data j endb = (j, true) := by
  simp only [isValidComma, isValidCommaF]
  rw [if_pos hj, hb, if_neg hnw, if_neg hn44, if_pos rfl]

theorem isValidComma_comma (data : List Nat) (j : Nat) (endb : Nat)
    (hj : j < data.length) (hb : data.getD j 0 = 44) :
    isValidComma data j endb = (j, true) := by
  simp only [isValidComma, isValidCommaF]
  rw [if_pos hj, hb]
  norm_num

theorem isValidColon_colon (data : List Nat) (j : Nat)
    (hj : j < data.length) (hb : data.getD j 0 = 58) :
    isValidColon data j = (j + 1, true) := by
  simp only [isValidColon, isValidColonF]
  rw [if_pos hj, hb]
  norm_num

theorem skipDigits_one (data : List Nat) (i : Nat) (rest : List Nat)
    (hdrop : data.drop i = 49 :: rest)
    (hrest : rest = [] ∨ ∃ b t, rest = b :: t ∧ ¬(48 ≤ b ∧ b ≤ 57)) :
    skipDigits data i = i + 1 := by
  have hi : i < data.length := lt_of_drop_cons hdrop
  have hgi : data.getD i 0 = 49 := getD_at data hdrop
  obtain ⟨f, hf⟩ : ∃ f, data.length + 1 = (f + 1) + 1 := ⟨data.length - 1, by omega⟩
  simp only [skipDigits]
  rw [hf]
  simp only [skipDigitsF]
  rw [if_pos hi, hgi, if_pos (by norm_num)]
  rcases hrest with h0 | ⟨b, t, hbt, hnd⟩
  · have hlen : data.length = i + 1 := by
      have h2 := len_of_drop hdrop (by omega)
      rw [h0] at h2
      simp at h2
      omega
    rw [if_neg (by omega)]
  · have hdrop1 : data.drop (i + 1) = b :: t := by
      rw [drop_succ hdrop, hbt]
    have hi1 : i + 1 < data.length := lt_of_drop_cons hdrop1
    have hgi1 : data.getD (i+1) 0 = b := getD_at data hdrop1
    rw [if_pos hi1, hgi1, if_neg hnd]

theorem isValidNumber_one (data : List Nat) (i : Nat) (rest : List Nat)
    (hdrop : data.drop i = 49 :: rest)
    (hrest : rest = [] ∨ ∃ b t, rest = b :: t ∧ (b = 44 ∨ b = 93 ∨ b = 125)) :
    isValidNumber data (i + 1) = (i + 1, true) := by
  have hi : i < data.length := lt_of_drop_cons hdrop
  have hgi : data.getD i 0 = 49 := getD_at data hdrop
  have hskip : skipDigits data i = i + 1 := by
    refine skipDigits_one data i rest hdrop ?_
    rcases hrest with h0 | ⟨b, t, hbt, hb⟩
    · exact Or.inl h0
    · refine Or.inr ⟨b, t, hbt, ?_⟩
      intro hcon
      rcases hb with h | h | h <;> omega
  unfold isValidNumber
  simp only [Nat.add_sub_cancel]
  rw [hgi, if_neg (by norm_num)]
  unfold numIntPart
  rw [if_neg (by omega), hgi, if_neg (by norm_num), hskip]
  unfold numAfterInt
  rcases hrest with h0 | ⟨b, t, hbt, hb⟩
  · have hlen : data.length = i + 1 := by
      have h2 := len_of_drop hdrop (by omega)
      rw [h0] at h2
      simp at h2
      omega
    rw [if_pos (by omega)]
  · have hdrop1 : data.drop (i + 1) = b :: t := by
      rw [drop_succ hdrop, hbt]
    have hgi1 : data.getD (i+1) 0 = b := getD_at data hdrop1
    rw [if_neg (by have := lt_of_drop_cons hdrop1; omega)]
    unfold numFrac numExp
    rw [hgi1]
    rcases hb with h | h | h <;> subst h <;> norm_num

/-! ## Small-step unfolding lemmas for the core -/

theorem validany_succ (fuel : Nat) (data : List Nat) (i : Nat) (d : Int) (v : Verify)
    (hd : ¬(v.jsonContainerDepthEnabled = true ∧ v.JSONContainerDepth < d)) :
    validany (fuel + 1) data i d v = vloop fuel data i d v := by
  simp only [validany, vloop, core]
  rw [if_neg hd]

theorem isValidArray_succ (fuel : Nat) (data : List Nat) (i : Nat) (d : Int) (v : Verify)
    (hd : ¬(v.jsonContainerDepthEnabled = true ∧ v.JSONContainerDepth < d)) :
    isValidArray (fuel + 1) data i d v = aloop fuel data i d v := by
  simp only [isValidArray, aloop, core]
  rw [if_neg hd]

theorem isValidArray_depthErr (fuel : Nat) (data : List Nat) (i : Nat) (d : Int)
    (v : Verify) (hd : v.jsonContainerDepthEnabled = true ∧ v.JSONContainerDepth < d) :
    isValidArray (fuel + 1) data i d v =
      ⟨i, false, some (fmtLimitErr "maxContainerDepthReached" v.JSONContainerDepth d), d⟩ := by
  simp only [isValidArray, core]
  rw [if_pos hd]

theorem isValidObject_succ (fuel : Nat) (data : List Nat) (i : Nat) (d : Int) (v : Verify)
    (hd : ¬(v.jsonContainerDepthEnabled = true ∧ v.JSONContainerDepth < d)) :
    isValidObject (fuel + 1) data i d v = oloop fuel data i d v := by
  simp only [isValidObject, oloop, core]
  rw [if_neg hd]

theorem vloop_openObj (fuel : Nat) (data : List Nat) (i : Nat) (d : Int) (v : Verify)
    (hi : i < data.length) (hc : data.getD i 0 = 123) :
    vloop (fuel + 1) data i d v = isValidObject fuel data (i+1) (d+1) v := by
  simp only [vloop, isValidObject, core]
  rw [if_pos hi, hc]
  norm_num

theorem vloop_openArr (fuel : Nat) (data : List Nat) (i : Nat) (d : Int) (v : Verify)
    (hi : i < data.length) (hc : data.getD i 0 = 91) :
    vloop (fuel + 1) data i d v = isValidArray fuel data (i+1) (d+1) v := by
  simp only [vloop, isValidArray, core]
  rw [if_pos hi, hc]
  norm_num

theorem vloop_string (fuel : Nat) (data : List Nat) (i : Nat) (d : Int) (v : Verify)
    (hi : i < data.length) (hc : data.getD i 0 = 34) :
    vloop (fuel + 1) data i d v =
      ⟨(isValidateString data (i+1)).1, (isValidateString data (i+1)).2,
        validateStringLength data i (isValidateString data (i+1)).1 v.stringLenEnabled
          v.StringValueLen stringValueLength, d⟩ := by
  simp only [vloop, core]
  rw [if_pos hi, hc]
  norm_num

theorem vloop_one (fuel : Nat) (data : List Nat) (i : Nat) (d : Int) (v : Verify)
    (hi : i < data.length) (hc : data.getD i 0 = 49) :
    vloop (fuel + 1) data i d v =
      ⟨(isValidNumber data (i+1)).1, (isValidNumber data (i+1)).2, none, d⟩ := by
  simp only [vloop, core]
  rw [if_pos hi, hc]
  norm_num

theorem aloop_close (fuel : Nat) (data : List Nat) (i : Nat) (d : Int) (v : Verify)
    (hi : i < data.length) (hc : data.getD i 0 = 93) :
    aloop (fuel + 1) data i d v = ⟨i + 1, true, none, d - 1⟩ := by
  simp only [aloop, core]
  rw [if_pos hi, hc]
  norm_num

theorem aloop_enter (fuel : Nat) (data : List Nat) (i : Nat) (d : Int) (v : Verify)
    (hi : i < data.length)
    (hc1 : ¬(data.getD i 0 = 32 ∨ data.getD i 0 = 9 ∨ data.getD i 0 = 10 ∨
      data.getD i 0 = 13))
    (hc2 : ¬ data.getD i 0 = 93) :
    aloop (fuel + 1) data i d v = aelems fuel data i d v 0 none := by
  simp only [aloop, aelems, core]
  rw [if_pos hi, if_neg hc1, if_neg hc2]

theorem oloop_close (fuel : Nat) (data : List Nat) (i : Nat) (d : Int) (v : Verify)
    (hi : i < data.length) (hc : data.getD i 0 = 125) :
    oloop (fuel + 1) data i d v = ⟨i + 1, true, none, d - 1⟩ := by
  simp only [oloop, core]
  rw [if_pos hi, hc]
  norm_num

theorem oloop_key (fuel : Nat) (data : List Nat) (i : Nat) (d : Int) (v : Verify)
    (hi : i < data.length) (hc : data.getD i 0 = 34) :
    oloop (fuel + 1) data i d v = oMember fuel data i d v 0 := by
  simp only [oloop, oMember, core]
  rw [if_pos hi, hc]
  norm_num

theorem oSeek_key (fuel : Nat) (data : List Nat) (i : Nat) (d : Int) (v : Verify)
    (c : Int) (hi : i < data.length) (hc : data.getD i 0 = 34) :
    oSeek (fuel + 1) data i d v c = oMember fuel data i d v c := by
  simp only [oSeek, oMember, core]
  rw [if_pos hi, hc]
  norm_num

theorem aelems_ok (fuel : Nat) (data : List Nat) (i : Nat) (d : Int) (v : Verify)
    (c : Int) (e0 : Option String) (j : Nat)
    (hi : i < data.length)
    (hval : validany fuel data i d v = ⟨j, true, none, d⟩)
    (hcomma : (isValidComma data j 93).2 = true) :
    aelems (fuel + 1) data i d v c e0 =
      (if v.arrayEntryCountEnabled = true ∧ v.MaxArrayElementCount < c + 1 then
        ⟨(isValidComma data j 93).1, false,
          some (fmtLimitErr "maxArrayElementCountReached" v.MaxArrayElementCount (c + 1)), d⟩
      else if data.getD (isValidComma data j 93).1 0 = 93 then
        ⟨(isValidComma data j 93).1 + 1, true, none, d - 1⟩
      else aelems fuel data ((isValidComma data j 93).1 + 1) d v (c + 1) none) := by
  have hval' : core data v fuel (.anyV i d) = ⟨j, true, none, d⟩ := hval
  simp only [aelems, core, hval', hcomma]
  rw [if_pos hi]
  simp

theorem oMember_run (fuel : Nat) (data : List Nat) (i : Nat) (d : Int) (v : Verify)
    (c : Int) (k j : Nat)
    (hkey : isValidateString data (i+1) = (k, true))
    (hcount : ¬(v.objectEntryCountEnabled = true ∧ v.ObjectEntryCount < c + 1))
    (hklen : validateStringLength data i k v.objectKeyLengthEnabled v.ObjectKeyLength
      objectKeyValueLength = none)
    (hcolon : (isValidColon data k).2 = true)
    (hval : validany fuel data (isValidColon data k).1 d v = ⟨j, true, none, d⟩)
    (hcomma : (isValidComma data j 125).2 = true) :
    oMember (fuel + 1) data i d v c =
      (if data.getD (isValidComma data j 125).1 0 = 125 then
        ⟨(isValidComma data j 125).1 + 1, true, none, d - 1⟩
      else oSeek fuel data ((isValidComma data j 125).1 + 1) d v (c + 1)) := by
  have hval' : core data v fuel (.anyV (isValidColon data k).1 d) = ⟨j, true, none, d⟩ := hval
  simp only [oMember, oSeek, core, hkey, hklen, hcolon, hval', hcomma]
  rw [if_neg hcount]
  simp

theorem oMember_keyErr (fuel : Nat) (data : List Nat) (i : Nat) (d : Int) (v : Verify)
    (c : Int) (k : Nat) (e : String)
    (hkey : isValidateString data (i+1) = (k, true))
    (hcount : ¬(v.objectEntryCountEnabled = true ∧ v.ObjectEntryCount < c + 1))
    (hklen : validateStringLength data i k v.objectKeyLengthEnabled v.ObjectKeyLength
      objectKeyValueLength = some e) :
    oMember (fuel + 1) data i d v c = ⟨k, false, some e, d⟩ := by
  simp only [oMember, core, hkey, hklen]
  rw [if_neg hcount]
  simp

theorem oMember_countErr (fuel : Nat) (data : List Nat) (i : Nat) (d : Int) (v : Verify)
    (c : Int) (k : Nat)
    (hkey : isValidateString data (i+1) = (k, true))
    (hcount : v.objectEntryCountEnabled = true ∧ v.ObjectEntryCount < c + 1) :
    oMember (fuel + 1) data i d v c =
      ⟨k, false,
        some (fmtLimitErr "maxObjectEntryCountReached" v.ObjectEntryCount (c + 1)), d⟩ := by
  simp only [oMember, core, hkey]
  rw [if_pos hcount]
  simp

theorem aelems_fail (fuel : Nat) (data : List Nat) (i : Nat) (d : Int) (v : Verify)
    (c : Int) (e0 : Option String)
    (hi : i < data.length)
    (hok : (validany fuel data i d v).ok = false) :
    aelems (fuel + 1) data i d v c e0 =
      ⟨(validany fuel data i d v).outi, false, (validany fuel data i d v).err,
        (validany fuel data i d v).depth⟩ := by
  have hok' : (core data v fuel (.anyV i d)).ok = false := hok
  simp only [aelems, validany, core]
  rw [if_pos hi, if_pos hok']

theorem validany_one (fuel : Nat) (data : List Nat) (i : Nat) (d : Int) (v : Verify)
    (rest : List Nat) (hf : 2 ≤ fuel)
    (hd : ¬(v.jsonContainerDepthEnabled = true ∧ v.JSONContainerDepth < d))
    (hdrop : data.drop i = 49 :: rest)
    (hrest : rest = [] ∨ ∃ b t, rest = b :: t ∧ (b = 44 ∨ b = 93 ∨ b = 125)) :
    validany fuel data i d v = ⟨i + 1, true, none, d⟩ := by
  obtain ⟨f, rfl⟩ : ∃ f, fuel = (f + 1) + 1 := ⟨fuel - 2, by omega⟩
  rw [validany_succ _ _ _ _ _ hd]
  rw [vloop_one _ _ _ _ _ (lt_of_drop_cons hdrop) (getD_at data hdrop)]
  rw [isValidNumber_one data i rest hdrop hrest]

/-! ## Nested-array documents: the depth boundary -/

theorem validany_nest (j : Nat) : ∀ (fuel : Nat) (data : List Nat) (i : Nat)
    (d m : Int) (rest : List Nat),
    5 * j + 6 ≤ fuel →
    data.drop i = List.replicate j 91 ++ 49 :: (List.replicate j 93 ++ rest) →
    (rest = [] ∨ ∃ t, rest = 93 :: t) →
    d + j ≤ m →
    validany fuel data i d (depthOnly m) = ⟨i + (2 * j + 1), true, none, d⟩ := by
  induction j with
  | zero =>
    intro fuel data i d m rest hf hdrop hrest hdm
    simp only [List.replicate_zero, List.nil_append] at hdrop
    have h1 : validany fuel data i d (depthOnly m) = ⟨i + 1, true, none, d⟩ := by
      refine validany_one fuel data i d (depthOnly m) rest (by omega) ?_ hdrop ?_
      · intro hc
        simp only [depthOnly] at hc
        omega
      · rcases hrest with h | ⟨t, ht⟩
        · exact Or.inl h
        · exact Or.inr ⟨93, t, ht, by norm_num⟩
    rw [h1]
  | succ j ih =>
    intro fuel data i d m rest hf hdrop hrest hdm
    have hdrop' : data.drop i =
        91 :: (List.replicate j 91 ++ 49 :: (List.replicate j 93 ++ (93 :: rest))) := by
      rw [hdrop, List.replicate_succ, List.replicate_succ']
      simp [List.append_assoc]
    obtain ⟨f, rfl⟩ : ∃ f, fuel = ((((f + 1) + 1) + 1) + 1) + 1 := ⟨fuel - 5, by omega⟩
    have hd : ¬((depthOnly m).jsonContainerDepthEnabled = true ∧
        (depthOnly m).JSONContainerDepth < d) := by
      intro hc
      simp only [depthOnly] at hc
      omega
    rw [validany_succ _ _ _ _ _ hd]
    rw [vloop_openArr _ _ _ _ _ (lt_of_drop_cons hdrop') (getD_at data hdrop')]
    have hd1 : ¬((depthOnly m).jsonContainerDepthEnabled = true ∧
        (depthOnly m).JSONContainerDepth < d + 1) := by
      intro hc
      simp only [depthOnly] at hc
      omega
    rw [isValidArray_succ _ _ _ _ _ hd1]
    have hdrop1 : data.drop (i+1) =
        List.replicate j 91 ++ 49 :: (List.replicate j 93 ++ (93 :: rest)) :=
      drop_succ hdrop'
    have hlen : data.length = i + 2 * j + 3 + rest.length := by
      have h2 := len_of_drop hdrop' (le_of_lt (lt_of_drop_cons hdrop'))
      simp [List.length_append, List.length_replicate] at h2
      omega
    have hhead : data.getD (i+1) 0 = 91 ∨ data.getD (i+1) 0 = 49 := by
      cases j with
      | zero =>
        right
        exact getD_at data (by simpa using hdrop1)
      | succ j2 =>
        left
        refine getD_at data (t := List.replicate j2 91 ++
          49 :: (List.replicate (j2+1) 93 ++ (93 :: rest))) ?_
        rw [hdrop1, List.replicate_succ]
        rfl
    have hc1 : ¬(data.getD (i+1) 0 = 32 ∨ data.getD (i+1) 0 = 9 ∨
        data.getD (i+1) 0 = 10 ∨ data.getD (i+1) 0 = 13) := by
      intro hc
      rcases hhead with h | h <;> rw [h] at hc <;> rcases hc with hc|hc|hc|hc <;> omega
    have hc2 : ¬ data.getD (i+1) 0 = 93 := by
      intro hc
      rcases hhead with h | h <;> rw [h] at hc <;> omega
    rw [aloop_enter _ _ _ _ _ (by omega) hc1 hc2]
    have hval := ih f data (i+1) (d+1) m (93 :: rest) (by omega) hdrop1
      (Or.inr ⟨rest, rfl⟩) (by omega)
    have hsplit : data.drop i =
        (91 :: (List.replicate j 91 ++ 49 :: List.replicate j 93)) ++ (93 :: rest) := by
      rw [hdrop']
      simp [List.append_assoc]
    have hplen : (91 :: (List.replicate j 91 ++ 49 :: List.replicate j 93)).length
        = 2 * j + 2 := by
      simp [List.length_append, List.length_replicate]
      omega
    have hJ : data.drop (i + (2 * j + 2)) = 93 :: rest := by
      have h3 := drop_add_of_drop hsplit
      rw [hplen] at h3
      exact h3
    have hcomma : isValidComma data ((i + 1) + (2 * j + 1)) 93
        = ((i + 1) + (2 * j + 1), true) := by
      have hidx : (i + 1) + (2 * j + 1) = i + (2 * j + 2) := by omega
      rw [hidx]
      exact isValidComma_close data _ 93 (lt_of_drop_cons hJ) (getD_at data hJ)
        (by norm_num) (by norm_num)
    rw [aelems_ok f data (i+1) (d+1) (depthOnly m) 0 none ((i + 1) + (2 * j + 1))
      (by omega) hval (by rw [hcomma])]
    rw [if_neg (by intro hc; simp only [depthOnly] at hc; exact absurd hc.1 (by norm_num))]
    rw [hcomma]
    have hb93 : data.getD (i + 1 + (2 * j + 1)) 0 = 93 := by
      have hidx : (i + 1) + (2 * j + 1) = i + (2 * j + 2) := by omega
      rw [hidx]
      exact getD_at data hJ
    rw [if_pos hb93]
    simp only [Res.mk.injEq]
    refine ⟨by omega, by trivial, by trivial, by omega⟩

theorem validany_nest_fail (j : Nat) : ∀ (fuel : Nat) (data : List Nat) (i : Nat)
    (d m : Int) (rest : List Nat),
    5 * j + 6 ≤ fuel →
    data.drop i = List.replicate (j + 1) 91 ++ rest →
    d + j = m →
    validany fuel data i d (depthOnly m) =
      ⟨i + j + 1, false, some (fmtLimitErr "maxContainerDepthReached" m (m + 1)),
        m + 1⟩ := by
  induction j with
  | zero =>
    intro fuel data i d m rest hf hdrop hdm
    have hd0 : d = m := by omega
    subst hd0
    have hdrop' : data.drop i = 91 :: rest := by simpa using hdrop
    obtain ⟨f, rfl⟩ : ∃ f, fuel = ((f + 1) + 1) + 1 := ⟨fuel - 3, by omega⟩
    have hd : ¬((depthOnly d).jsonContainerDepthEnabled = true ∧
        (depthOnly d).JSONContainerDepth < d) := by
      intro hc
      simp only [depthOnly] at hc
      omega
    rw [validany_succ _ _ _ _ _ hd]
    rw [vloop_openArr _ _ _ _ _ (lt_of_drop_cons hdrop') (getD_at data hdrop')]
    rw [isValidArray_depthErr _ _ _ _ _
      (by simp only [depthOnly]; exact ⟨by trivial, by omega⟩)]
    simp only [depthOnly]
  | succ j ih =>
    intro fuel data i d m rest hf hdrop hdm
    have hdrop' : data.drop i = 91 :: (List.replicate (j + 1) 91 ++ rest) := by
      rw [hdrop, List.replicate_succ]
      rfl
    obtain ⟨f, rfl⟩ : ∃ f, fuel = ((((f + 1) + 1) + 1) + 1) + 1 := ⟨fuel - 5, by omega⟩
    have hd : ¬((depthOnly m).jsonContainerDepthEnabled = true ∧
        (depthOnly m).JSONContainerDepth < d) := by
      intro hc
      simp only [depthOnly] at hc
      omega
    rw [validany_succ _ _ _ _ _ hd]
    rw [vloop_openArr _ _ _ _ _ (lt_of_drop_cons hdrop') (getD_at data hdrop')]
    have hd1 : ¬((depthOnly m).jsonContainerDepthEnabled = true ∧
        (depthOnly m).JSONContainerDepth < d + 1) := by
      intro hc
      simp only [depthOnly] at hc
      omega
    rw [isValidArray_succ _ _ _ _ _ hd1]
    have hdrop1 : data.drop (i+1) = List.replicate (j + 1) 91 ++ rest :=
      drop_succ hdrop'
    have hdrop1' : data.drop (i+1) = 91 :: (List.replicate j 91 ++ rest) := by
      rw [hdrop1, List.replicate_succ]
      rfl
    have hc1 : ¬(data.getD (i+1) 0 = 32 ∨ data.getD (i+1) 0 = 9 ∨
        data.getD (i+1) 0 = 10 ∨ data.getD (i+1) 0 = 13) := by
      rw [getD_at data hdrop1']
      norm_num
    have hc2 : ¬ data.getD (i+1) 0 = 93 := by
      rw [getD_at data hdrop1']
      norm_num
    rw [aloop_enter _ _ _ _ _ (lt_of_drop_cons hdrop1') hc1 hc2]
    have hval := ih f data (i+1) (d+1) m rest (by omega) hdrop1 (by omega)
    rw [aelems_fail f data (i+1) (d+1) (depthOnly m) 0 none
      (lt_of_drop_cons hdrop1') (by rw [hval])]
    rw [hval]
    simp only [Res.mk.injEq]
    exact ⟨by omega, by trivial, by trivial, by trivial⟩

theorem nestDoc_length (k : Nat) : (nestDoc k).length = 2 * k + 1 := by
  simp only [nestDoc, List.length_append, List.length_replicate, List.length_cons]
  omega

/-! ## String documents: scanning, rune counting and the length boundary -/

theorem isValidateStringF_run (n : Nat) : ∀ (fuel : Nat) (data : List Nat) (p : Nat)
    (rest : List Nat),
    n < fuel →
    data.drop p = List.replicate n 97 ++ 34 :: rest →
    isValidateStringF fuel data p = (p + n + 1, true) := by
  induction n with
  | zero =>
    intro fuel data p rest hf hdrop
    simp only [List.replicate_zero, List.nil_append] at hdrop
    obtain ⟨f, rfl⟩ : ∃ f, fuel = f + 1 := ⟨fuel - 1, by omega⟩
    simp only [isValidateStringF]
    rw [if_pos (lt_of_drop_cons hdrop), getD_at data hdrop]
    norm_num
  | succ n ih =>
    intro fuel data p rest hf hdrop
    have hdrop' : data.drop p = 97 :: (List.replicate n 97 ++ 34 :: rest) := by
      rw [hdrop, List.replicate_succ]
      rfl
    obtain ⟨f, rfl⟩ : ∃ f, fuel = f + 1 := ⟨fuel - 1, by omega⟩
    simp only [isValidateStringF]
    rw [if_pos (lt_of_drop_cons hdrop'), getD_at data hdrop']
    norm_num
    rw [ih f data (p+1) rest (by omega) (drop_succ hdrop')]
    simp only [Prod.mk.injEq]
    exact ⟨by omega, by trivial⟩

theorem isValidateString_run (n : Nat) (data : List Nat) (p : Nat) (rest : List Nat)
    (hdrop : data.drop p = List.replicate n 97 ++ 34 :: rest) :
    isValidateString data p = (p + n + 1, true) := by
  have hn : n ≤ data.length := by
    have h1 := len_of_drop hdrop (by
      by_contra hc
      rw [List.drop_eq_nil_iff.mpr (by omega)] at hdrop
      have h2 := congrArg List.length hdrop
      simp [List.length_append, List.length_replicate] at h2
      omega)
    simp [List.length_append, List.length_replicate] at h1
    omega
  exact isValidateStringF_run n (data.length + 1) data p rest (by omega) hdrop

theorem runeCountLoopF_ascii : ∀ (fuel : Nat) (p : List Nat) (i n : Nat),
    p.length - i < fuel →
    (∀ c ∈ p, c < 128) →
    runeCountLoopF fuel p i n = n + (p.length - i) := by
  intro fuel
  induction fuel with
  | zero =>
    intro p i n hf hascii
    omega
  | succ fuel ih =>
    intro p i n hf hascii
    simp only [runeCountLoopF]
    split
    · next h1 =>
      have hc : p.getD i 0 < 128 := by
        have hm : p.getD i 0 ∈ p := by
          rw [List.getD_eq_getElem p 0 h1]
          exact List.getElem_mem h1
        exact hascii _ hm
      rw [if_pos hc]
      rw [ih p (i+1) (n+1) (by omega) hascii]
      omega
    · next h1 => omega

theorem utf8RuneCount_ascii (p : List Nat) (h : ∀ c ∈ p, c < 128) :
    utf8RuneCount p = p.length := by
  unfold utf8RuneCount
  rw [runeCountLoopF_ascii (p.length + 1) p 0 0 (by omega) h]
  omega

theorem vsl_run (data : List Nat) (i L : Nat) (rest : List Nat) (en : Bool) (m : Int)
    (t : String)
    (hdrop : data.drop i = 34 :: (List.replicate L 97 ++ 34 :: rest)) :
    validateStringLength data i (i + L + 2) en m t =
      if en = true ∧ (L : Int) > m then some (fmtLimitErr t m L) else none := by
  have hstr : (data.take (i + L + 2)).drop i = 34 :: (List.replicate L 97 ++ [34]) := by
    rw [show i + L + 2 = i + (L + 2) by omega, ← List.take_drop]
    rw [hdrop]
    simp only [List.take_succ_cons, List.cons.injEq, true_and]
    rw [List.take_append_eq_append_take, List.take_of_length_le
      (by simp [List.length_replicate])]
    simp [List.length_replicate, List.take_succ_cons]
  have hcount : utf8RuneCount (34 :: (List.replicate L 97 ++ [34])) = L + 2 := by
    rw [utf8RuneCount_ascii]
    · simp [List.length_append, List.length_replicate]
    · intro c hc
      simp only [List.mem_cons, List.mem_append, List.mem_replicate,
        List.mem_singleton, List.not_mem_nil, or_false] at hc
      rcases hc with h | ⟨h1, h2⟩ | h <;> omega
  have harith : ((L + 2 : Nat) : Int) - 2 = (L : Int) := by push_cast; ring
  unfold validateStringLength
  rw [hstr, hcount, harith]

theorem validany_str (fuel : Nat) (data : List Nat) (i : Nat) (d : Int) (v : Verify)
    (L : Nat) (rest : List Nat) (hf : 2 ≤ fuel)
    (hd : ¬(v.jsonContainerDepthEnabled = true ∧ v.JSONContainerDepth < d))
    (hdrop : data.drop i = 34 :: (List.replicate L 97 ++ 34 :: rest)) :
    validany fuel data i d v =
      ⟨i + L + 2, true,
        validateStringLength data i (i + L + 2) v.stringLenEnabled v.StringValueLen
          stringValueLength, d⟩ := by
  obtain ⟨f, rfl⟩ : ∃ f, fuel = (f + 1) + 1 := ⟨fuel - 2, by omega⟩
  rw [validany_succ _ _ _ _ _ hd]
  rw [vloop_string _ _ _ _ _ (lt_of_drop_cons hdrop) (getD_at data hdrop)]
  have hscan : isValidateString data (i+1) = (i + L + 2, true) := by
    rw [isValidateString_run L data (i+1) rest (drop_succ hdrop)]
    simp only [Prod.mk.injEq]
    exact ⟨by omega, by trivial⟩
  rw [hscan]

/-! ## Driver assembly helpers -/

theorem skipWS0_of_getD (data : List Nat) (b : Nat) (hb : data.getD 0 0 = b)
    (hnw : isWSb b = false) : skipWS data 0 = 0 :=
  skipWS_stop0 _ _ (fun _ => by rw [hb]; exact hnw)

theorem skipWSF_ge (fuel : Nat) (data : List Nat) (i : Nat) :
    i ≤ skipWSF fuel data i := by
  induction fuel generalizing i with
  | zero => simp [skipWSF]
  | succ fuel ih =>
    simp only [skipWSF]
    split
    · split
      · have h1 := ih (i+1)
        omega
      · omega
    · omega

theorem skipWS_ge (data : List Nat) (i : Nat) : i ≤ skipWS data i :=
  skipWSF_ge _ data i

theorem skipWSF_le (fuel : Nat) (data : List Nat) (i : Nat) (hi : i ≤ data.length) :
    skipWSF fuel data i ≤ data.length := by
  induction fuel generalizing i with
  | zero => simpa [skipWSF] using hi
  | succ fuel ih =>
    simp only [skipWSF]
    split
    · split
      · exact ih (i+1) (by omega)
      · omega
    · omega

theorem skipWS_le (data : List Nat) (i : Nat) (hi : i ≤ data.length) :
    skipWS data i ≤ data.length := skipWSF_le _ data i hi

theorem skipWSF_stop (fuel : Nat) (data : List Nat) (i : Nat)
    (hf : data.length - i < fuel)
    (h : skipWSF fuel data i < data.length) :
    isWSb (data.getD (skipWSF fuel data i) 0) = false := by
  induction fuel generalizing i with
  | zero => omega
  | succ fuel ih =>
    simp only [skipWSF] at h ⊢
    split at h
    · next h1 =>
      split at h
      · next h2 =>
        rw [if_pos h1, if_pos h2]
        exact ih (i+1) (by omega) h
      · next h2 =>
        rw [if_pos h1, if_neg h2]
        simp only [Bool.not_eq_true] at h2
        exact h2
    · next h1 => omega

theorem skipWS_stop (data : List Nat) (i : Nat)
    (h : skipWS data i < data.length) :
    isWSb (data.getD (skipWS data i) 0) = false :=
  skipWSF_stop (data.length + 1) data i (by omega) h

theorem skipWSF_of_all (fuel : Nat) (data : List Nat) (i : Nat)
    (hf : data.length - i < fuel) (hi : i ≤ data.length)
    (h : (data.drop i).all isWSb = true) : skipWSF fuel data i = data.length := by
  induction fuel generalizing i with
  | zero => omega
  | succ fuel ih =>
    simp only [skipWSF]
    split
    · next h1 =>
      obtain ⟨b, t, hbt⟩ : ∃ b t, data.drop i = b :: t := by
        cases hd : data.drop i with
        | nil => rw [List.drop_eq_nil_iff] at hd; omega
        | cons b t => exact ⟨b, t, rfl⟩
      have hb : data.getD i 0 = b := getD_at data hbt
      rw [hbt, List.all_cons, Bool.and_eq_true] at h
      rw [if_pos (by rw [hb]; exact h.1)]
      refine ih (i+1) (by omega) (by omega) ?_
      rw [drop_succ hbt]
      exact h.2
    · next h1 => omega

theorem skipWS_of_all (data : List Nat) (i : Nat) (hi : i ≤ data.length)
    (h : (data.drop i).all isWSb = true) : skipWS data i = data.length :=
  skipWSF_of_all (data.length + 1) data i (by omega) hi h

theorem jtrailF_snd (fuel : Nat) (data : List Nat) (i : Nat)
    (hf : data.length - i < fuel) :
    (jtrailF fuel data i).2 = (data.drop i).all isWSb := by
  induction fuel generalizing i with
  | zero => omega
  | succ fuel ih =>
    simp only [jtrailF]
    split
    · next h1 =>
      obtain ⟨b, t, hbt⟩ : ∃ b t, data.drop i = b :: t := by
        cases hd : data.drop i with
        | nil => rw [List.drop_eq_nil_iff] at hd; omega
        | cons b t => exact ⟨b, t, rfl⟩
      have hb : data.getD i 0 = b := getD_at data hbt
      rw [hbt, List.all_cons]
      split
      · next h2 =>
        have hws : isWSb b = true := by rw [isWSb_iff, ← hb]; exact h2
        rw [hws]
        have h3 := ih (i+1) (by omega)
        rw [drop_succ hbt] at h3
        simpa using h3
      · next h2 =>
        have hws : isWSb b = false := by
          rw [← Bool.not_eq_true, isWSb_iff, ← hb]
          exact h2
        simp [hws]
    · next h1 =>
      have h2 : data.drop i = [] := by
        rw [List.drop_eq_nil_iff]
        omega
      simp [h2]

theorem jtrail_snd (data : List Nat) (i : Nat) :
    (jtrail data i).2 = (data.drop i).all isWSb :=
  jtrailF_snd (data.length + 1) data i (by omega)

theorem VerifyBytes_of_validany_ok (v : Verify) (data : List Nat) (j : Nat)
    (hws : skipWS data 0 = 0) (h0 : 0 < data.length)
    (hval : validany (driverFuel data) data 0 0 v = ⟨j, true, none, 0⟩)
    (hend : ¬ j < data.length) :
    VerifyBytes v data = (true, none) := by
  unfold VerifyBytes isValidJSON
  rw [hws, hval, if_pos h0]
  rw [if_neg (by simp)]
  rw [jtrail_at_end _ _ (show ¬((⟨j, true, none, 0⟩ : Res).outi < data.length) from hend)]
  simp

theorem VerifyBytes_of_validany_err (v : Verify) (data : List Nat) (r : Res)
    (hws : skipWS data 0 = 0) (h0 : 0 < data.length)
    (hval : validany (driverFuel data) data 0 0 v = r)
    (herr : r.err ≠ none) :
    VerifyBytes v data = (false, r.err) := by
  unfold VerifyBytes isValidJSON
  rw [hws, hval, if_pos h0]
  rw [if_pos (Or.inr herr)]
  simp [herr]

/-- On success `isValidJSON` returns a `nil` error. -/
theorem isValidJSON_ok_err (fuel : Nat) (data : List Nat) (i : Nat) (d : Int)
    (v : Verify) (h : (isValidJSON fuel data i d v).ok = true) :
    (isValidJSON fuel data i d v).err = none := by
  unfold isValidJSON at h ⊢
  split at h
  · next h1 =>
    split at h
    · simp at h
    · next h2 =>
      rw [if_pos h1, if_neg h2]
      push_neg at h2
      exact h2.2
  · simp at h

/-- On success `isValidJSON` leaves the depth counter at its initial value. -/
theorem isValidJSON_ok_depth (fuel : Nat) (data : List Nat) (i : Nat) (d : Int)
    (v : Verify) (h : (isValidJSON fuel data i d v).ok = true) :
    (isValidJSON fuel data i d v).depth = d := by
  unfold isValidJSON at h ⊢
  split at h
  · next h1 =>
    split at h
    · simp at h
    · next h2 =>
      rw [if_pos h1, if_neg h2]
      push_neg at h2
      exact ((corePack fuel).1 data (skipWS data i) d v).1 (bool_true_of_not_false h2.1)
  · simp at h

/-- Every error `isValidJSON` returns is a limit error (the structural
sentinel is added only by `VerifyBytes`). -/
theorem isValidJSON_err_shape (fuel : Nat) (data : List Nat) (i : Nat) (d : Int)
    (v : Verify) : ErrOk (isValidJSON fuel data i d v).err := by
  unfold isValidJSON
  split
  · split
    · exact ((corePack fuel).1 data (skipWS data i) d v).2
    · exact ((corePack fuel).1 data (skipWS data i) d v).2
  · exact ErrOk_none

/-! ## Top-level driver equivalence -/

theorem VerifyBytes_eq_topSpec (v : Verify) (data : List Nat) :
    VerifyBytes v data = topSpec v data := by
  unfold VerifyBytes topSpec isValidJSON
  have hle := skipWS_le data 0 (by omega)
  by_cases hlt : skipWS data 0 < data.length
  · simp only [if_pos hlt]
    by_cases hf : (validany (driverFuel data) data (skipWS data 0) 0 v).ok = false ∨
        (validany (driverFuel data) data (skipWS data 0) 0 v).err ≠ none
    · simp only [if_pos hf]
      have hcond : ¬((validany (driverFuel data) data (skipWS data 0) 0 v).ok = true ∧
          (validany (driverFuel data) data (skipWS data 0) 0 v).err = none) := by
        rcases hf with hf | hf
        · intro hc
          rw [hc.1] at hf
          cases hf
        · intro hc
          exact hf hc.2
      rw [if_neg (by omega : ¬ skipWS data 0 = data.length)]
      simp only [if_neg hcond]
      by_cases he : (validany (driverFuel data) data (skipWS data 0) 0 v).err = none
      · simp [he]
      · simp [he]
    · simp only [if_neg hf]
      push_neg at hf
      have hok : (validany (driverFuel data) data (skipWS data 0) 0 v).ok = true :=
        bool_true_of_not_false hf.1
      rw [if_neg (by omega : ¬ skipWS data 0 = data.length)]
      simp only [if_pos (And.intro hok hf.2)]
      rw [jtrail_snd]
      by_cases hall :
          (data.drop (validany (driverFuel data) data (skipWS data 0) 0 v).outi).all isWSb = true
      · simp [hall, hok, hf.2]
      · simp only [Bool.not_eq_true] at hall
        simp [hall, hok, hf.2]
  · have hend : skipWS data 0 = data.length := by omega
    simp only [if_neg hlt, if_pos hend]
    simp

/-! ## Claim theorems -/

/-- C1: for every input buffer and every configuration, whenever
`VerifyBytes` (and hence `VerifyString`) returns `valid = true` the
returned error is `nil`; the pair `(true, non-nil)` never occurs — in
particular a grammatically valid array whose string element exceeds the
enabled string-value-length limit yields `(false, limit error)`, not
`(true, limit error)`. -/
theorem claim_C1 :
    (∀ (v : Verify) (data : List Nat),
      (VerifyBytes v data).1 = true → (VerifyBytes v data).2 = none) ∧
    (∀ (v : Verify) (data : List Nat),
      (VerifyString v data).1 = true → (VerifyString v data).2 = none) ∧
    VerifyBytes { StringValueLen := 45, stringLenEnabled := true }
        (91 :: (strDoc 47 ++ [93])) =
      (false, some (fmtLimitErr stringValueLength 45 47)) := by
  have hmain : ∀ (v : Verify) (data : List Nat),
      (VerifyBytes v data).1 = true → (VerifyBytes v data).2 = none := by
    intro v data h
    unfold VerifyBytes at h ⊢
    simp only at h ⊢
    rw [if_neg ?_]
    · exact isValidJSON_ok_err (driverFuel data) data 0 0 v h
    · intro hc
      rw [h] at hc
      simp at hc
  refine ⟨hmain, fun v data => hmain v data, by decide⟩

/-- C1 witness: a concrete successful validation has a `nil` error. -/
theorem claim_C1_witness :
    (VerifyBytes { MaxArrayElementCount := 0 : Verify } [49]).2 = none :=
  claim_C1.1 { MaxArrayElementCount := 0 } [49] (by decide)

/-- C2 (code bug): the spec and the claim say that each of the literals
`true`, `false`, `null` validates, as a whole document and inside
containers; the code's `case 'f'` arm in `validany` lacks a `return`
(jtp.go line 392), so `false` is rejected everywhere while `true` and
`null` are accepted; a stray `f` byte before a value is even silently
skipped. -/
theorem claim_C2_code_evaluation :
    VerifyBytes {} [102, 97, 108, 115, 101] = (false, some ErrInvalidJSON) ∧
    VerifyBytes {} [116, 114, 117, 101] = (true, none) ∧
    VerifyBytes {} [110, 117, 108, 108] = (true, none) ∧
    VerifyBytes {} [32, 9, 116, 114, 117, 101, 10, 13] = (true, none) ∧
    VerifyBytes {} [32, 9, 110, 117, 108, 108, 10, 13] = (true, none) ∧
    VerifyBytes {} [91, 116, 114, 117, 101, 44, 110, 117, 108, 108, 93] = (true, none) ∧
    VerifyBytes {} [91, 102, 97, 108, 115, 101, 93] = (false, some ErrInvalidJSON) ∧
    VerifyBytes {} [123, 34, 97, 34, 58, 102, 97, 108, 115, 101, 125] =
      (false, some ErrInvalidJSON) ∧
    VerifyBytes {} [102, 32, 123, 125] = (true, none) := by
  decide

/-- C3 counterexample: the claim's error strings carry the prefix
`threat.`; the code builds every error with the prefix `jtp.`
(`fmt.Errorf("jtp.%s...")`, `errors.New("jtp.MalformedJSON")`), so the
claimed concrete scenario result is not what the code returns. -/
theorem claim_C3_counterexample :
    VerifyBytes { StringValueLen := 45, stringLenEnabled := true } (strDoc 47) ≠
      (false, some "threat.maxStringValueLengthReached.Max-[45]-Allowed.Found-[47]") := by
  decide

/-- C3 (amended): every non-nil error returned by `VerifyBytes` is either
the sentinel `jtp.MalformedJSON` or the verbatim string
`jtp.<label>.Max-[<max>]-Allowed.Found-[<found>]` for one of the five
labels; the concrete scenario (a 47-character string value against an
enabled maximum of 45) yields exactly
`(false, "jtp.maxStringValueLengthReached.Max-[45]-Allowed.Found-[47]")`. -/
theorem claim_C3_amended :
    (∀ (v : Verify) (data : List Nat) (s : String),
      (VerifyBytes v data).2 = some s → s = ErrInvalidJSON ∨ LimitErrP s) ∧
    VerifyBytes { StringValueLen := 45, stringLenEnabled := true } (strDoc 47) =
      (false, some "jtp.maxStringValueLengthReached.Max-[45]-Allowed.Found-[47]") := by
  constructor
  · intro v data s h
    unfold VerifyBytes at h
    simp only at h
    split at h
    · left
      injection h with h
      exact h.symm
    · right
      exact isValidJSON_err_shape (driverFuel data) data 0 0 v s h
  · decide

/-- C3 amended witness: the sentinel branch at a concrete truncated input. -/
theorem claim_C3_witness :
    "jtp.MalformedJSON" = ErrInvalidJSON ∨ LimitErrP "jtp.MalformedJSON" :=
  claim_C3_amended.1 {} [91] "jtp.MalformedJSON" (by decide)

/-- C4: with the depth limit enabled at maximum `D`, the document of
`D` nested arrays around a number validates successfully, while the
document nested one level deeper fails with a depth-limit error whose
reported found value is `D + 1`. -/
theorem claim_C4 (D : Nat) :
    VerifyBytes (depthOnly D) (nestDoc D) = (true, none) ∧
    VerifyBytes (depthOnly D) (nestDoc (D + 1)) =
      (false, some (fmtLimitErr "maxContainerDepthReached" (D : Int) ((D : Int) + 1))) := by
  constructor
  · have hlen1 := nestDoc_length D
    have hdrop : (nestDoc D).drop 0 =
        List.replicate D 91 ++ 49 :: (List.replicate D 93 ++ []) := by
      simp [nestDoc]
    have hval := validany_nest D (driverFuel (nestDoc D)) (nestDoc D) 0 0 (D : Int) []
      (by simp only [driverFuel, hlen1]; omega) hdrop (Or.inl rfl) (by omega)
    have hval' : validany (driverFuel (nestDoc D)) (nestDoc D) 0 0 (depthOnly (D : Int)) =
        ⟨2 * D + 1, true, none, 0⟩ := by
      rw [hval]
      norm_num
    have hws : skipWS (nestDoc D) 0 = 0 := by
      refine skipWS_stop0 _ _ (fun h => ?_)
      cases D with
      | zero => decide
      | succ D2 =>
        have hd2 : (nestDoc (D2+1)).getD 0 0 = 91 := by
          refine getD_at _ (t := List.replicate D2 91 ++
            49 :: List.replicate (D2+1) 93) ?_
          simp [nestDoc, List.replicate_succ]
        rw [hd2]
        decide
    unfold VerifyBytes isValidJSON
    rw [hws, hval']
    rw [if_pos (show (0:Nat) < (nestDoc D).length by rw [hlen1]; omega)]
    rw [if_neg (by simp)]
    rw [jtrail_at_end _ _
      (show ¬((⟨2 * D + 1, true, none, 0⟩ : Res).outi < (nestDoc D).length) by
        rw [hlen1]
        exact Nat.lt_irrefl _)]
    simp
  · have hdrop : (nestDoc (D+1)).drop 0 =
        List.replicate (D+1) 91 ++ (49 :: List.replicate (D+1) 93) := by
      simp [nestDoc]
    have hlen2 := nestDoc_length (D+1)
    have hval := validany_nest_fail D (driverFuel (nestDoc (D+1))) (nestDoc (D+1)) 0 0
      (D : Int) (49 :: List.replicate (D+1) 93)
      (by simp only [driverFuel, hlen2]; omega) hdrop (by omega)
    have hws : skipWS (nestDoc (D+1)) 0 = 0 := by
      refine skipWS_stop0 _ _ (fun h => ?_)
      have hd2 : (nestDoc (D+1)).getD 0 0 = 91 := by
        refine getD_at _ (t := List.replicate D 91 ++
          49 :: List.replicate (D+1) 93) ?_
        simp [nestDoc, List.replicate_succ]
      rw [hd2]
      decide
    unfold VerifyBytes isValidJSON
    rw [hws, hval]
    rw [if_pos (show (0:Nat) < (nestDoc (D+1)).length by rw [hlen2]; omega)]
    rw [if_pos (by simp)]
    simp

/-! ## Flat array and object documents: the count boundary -/

theorem vsl_disabled (data : List Nat) (s e : Nat) (m : Int) (t : String) :
    validateStringLength data s e false m t = none := by
  unfold validateStringLength
  rw [if_neg (fun hc => by simp at hc)]

theorem sepOnes_length (j : Nat) : (sepOnes (j + 1)).length = 2 * j + 1 := by
  induction j with
  | zero => rfl
  | succ n ih =>
    show (49 :: 44 :: sepOnes (n + 1)).length = 2 * (n + 1) + 1
    simp only [List.length_cons, ih]
    omega

theorem memSeq_length (j : Nat) : (memSeq (j + 1)).length = 6 * j + 5 := by
  induction j with
  | zero => rfl
  | succ n ih =>
    show (34 :: 97 :: 34 :: 58 :: 49 :: 44 :: memSeq (n + 1)).length = 6 * (n + 1) + 5
    simp only [List.length_cons, ih]
    omega

theorem sepOnes_cons (j : Nat) : ∃ r, sepOnes (j + 1) ++ [93] = 49 :: r := by
  cases j with
  | zero => exact ⟨[93], rfl⟩
  | succ n =>
    refine ⟨44 :: (sepOnes (n + 1) ++ [93]), ?_⟩
    rw [show sepOnes (n + 1 + 1) = 49 :: 44 :: sepOnes (n + 1) from rfl]
    simp

theorem memSeq_cons (j : Nat) : ∃ r, memSeq (j + 1) ++ [125] = 34 :: r := by
  cases j with
  | zero => exact ⟨[97, 34, 58, 49, 125], rfl⟩
  | succ n =>
    refine ⟨97 :: 34 :: 58 :: 49 :: 44 :: (memSeq (n + 1) ++ [125]), ?_⟩
    rw [show memSeq (n + 1 + 1) = 34 :: 97 :: 34 :: 58 :: 49 :: 44 :: memSeq (n + 1)
      from rfl]
    simp

theorem aelems_run (j : Nat) : ∀ (fuel : Nat) (data : List Nat) (i : Nat) (d M c : Int)
    (e0 : Option String),
    2 * j + 3 ≤ fuel →
    data.drop i = sepOnes (j + 1) ++ [93] →
    c + (j : Int) + 1 ≤ M →
    aelems fuel data i d (arrOnly M) c e0 = ⟨i + 2 * j + 2, true, none, d - 1⟩ := by
  induction j with
  | zero =>
    intro fuel data i d M c e0 hf hdrop hcM
    rw [show i + 2 * 0 + 2 = i + 2 by omega]
    have hdrop0 : data.drop i = 49 :: [93] := hdrop
    obtain ⟨f, rfl⟩ : ∃ f, fuel = f + 1 := ⟨fuel - 1, by omega⟩
    have hdrop1 : data.drop (i + 1) = [93] := drop_succ hdrop0
    have hval : validany f data i d (arrOnly M) = ⟨i + 1, true, none, d⟩ :=
      validany_one f data i d (arrOnly M) [93] (by omega)
        (fun hc => by simp [arrOnly] at hc) hdrop0 (Or.inr ⟨93, [], rfl, by norm_num⟩)
    have hcomma : isValidComma data (i + 1) 93 = (i + 1, true) :=
      isValidComma_close data (i + 1) 93 (lt_of_drop_cons hdrop1) (getD_at data hdrop1)
        (by norm_num) (by norm_num)
    rw [aelems_ok f data i d (arrOnly M) c e0 (i + 1) (lt_of_drop_cons hdrop0) hval
      (by rw [hcomma])]
    rw [if_neg (fun hc => absurd hc.2 (by simp only [arrOnly]; omega))]
    rw [hcomma]
    rw [if_pos (getD_at data hdrop1)]
  | succ n ih =>
    intro fuel data i d M c e0 hf hdrop hcM
    rw [show i + 2 * (n + 1) + 2 = i + 2 + 2 * n + 2 by omega]
    have hdrop0 : data.drop i = 49 :: 44 :: (sepOnes (n + 1) ++ [93]) := hdrop
    obtain ⟨f, rfl⟩ : ∃ f, fuel = f + 1 := ⟨fuel - 1, by omega⟩
    have hdrop1 : data.drop (i + 1) = 44 :: (sepOnes (n + 1) ++ [93]) := drop_succ hdrop0
    have hdrop2 : data.drop (i + 2) = sepOnes (n + 1) ++ [93] := drop_succ hdrop1
    have hval : validany f data i d (arrOnly M) = ⟨i + 1, true, none, d⟩ :=
      validany_one f data i d (arrOnly M) (44 :: (sepOnes (n + 1) ++ [93])) (by omega)
        (fun hc => by simp [arrOnly] at hc) hdrop0 (Or.inr ⟨44, _, rfl, by norm_num⟩)
    have hcomma : isValidComma data (i + 1) 93 = (i + 1, true) :=
      isValidComma_comma data (i + 1) 93 (lt_of_drop_cons hdrop1) (getD_at data hdrop1)
    rw [aelems_ok f data i d (arrOnly M) c e0 (i + 1) (lt_of_drop_cons hdrop0) hval
      (by rw [hcomma])]
    rw [if_neg (fun hc => absurd hc.2 (by simp only [arrOnly]; omega))]
    rw [hcomma]
    rw [if_neg (show ¬ data.getD (i + 1) 0 = 93 by rw [getD_at data hdrop1]; decide)]
    exact ih f data (i + 2) d M (c + 1) none (by omega) hdrop2 (by push_cast at hcM ⊢; omega)

theorem aelems_over (j : Nat) : ∀ (fuel : Nat) (data : List Nat) (i : Nat) (d M c : Int)
    (e0 : Option String),
    2 * j + 3 ≤ fuel →
    data.drop i = sepOnes (j + 1) ++ [93] →
    c + (j : Int) + 1 = M + 1 →
    aelems fuel data i d (arrOnly M) c e0 =
      ⟨i + 2 * j + 1, false,
        some (fmtLimitErr "maxArrayElementCountReached" M (M + 1)), d⟩ := by
  induction j with
  | zero =>
    intro fuel data i d M c e0 hf hdrop hcM
    rw [show i + 2 * 0 + 1 = i + 1 by omega]
    have hdrop0 : data.drop i = 49 :: [93] := hdrop
    obtain ⟨f, rfl⟩ : ∃ f, fuel = f + 1 := ⟨fuel - 1, by omega⟩
    have hdrop1 : data.drop (i + 1) = [93] := drop_succ hdrop0
    have hval : validany f data i d (arrOnly M) = ⟨i + 1, true, none, d⟩ :=
      validany_one f data i d (arrOnly M) [93] (by omega)
        (fun hc => by simp [arrOnly] at hc) hdrop0 (Or.inr ⟨93, [], rfl, by norm_num⟩)
    have hcomma : isValidComma data (i + 1) 93 = (i + 1, true) :=
      isValidComma_close data (i + 1) 93 (lt_of_drop_cons hdrop1) (getD_at data hdrop1)
        (by norm_num) (by norm_num)
    rw [aelems_ok f data i d (arrOnly M) c e0 (i + 1) (lt_of_drop_cons hdrop0) hval
      (by rw [hcomma])]
    rw [if_pos ⟨rfl, by simp only [arrOnly]; omega⟩]
    rw [hcomma]
    rw [show c + 1 = M + 1 by omega]
    simp only [arrOnly]
  | succ n ih =>
    intro fuel data i d M c e0 hf hdrop hcM
    rw [show i + 2 * (n + 1) + 1 = i + 2 + 2 * n + 1 by omega]
    have hdrop0 : data.drop i = 49 :: 44 :: (sepOnes (n + 1) ++ [93]) := hdrop
    obtain ⟨f, rfl⟩ : ∃ f, fuel = f + 1 := ⟨fuel - 1, by omega⟩
    have hdrop1 : data.drop (i + 1) = 44 :: (sepOnes (n + 1) ++ [93]) := drop_succ hdrop0
    have hdrop2 : data.drop (i + 2) = sepOnes (n + 1) ++ [93] := drop_succ hdrop1
    have hval : validany f data i d (arrOnly M) = ⟨i + 1, true, none, d⟩ :=
      validany_one f data i d (arrOnly M) (44 :: (sepOnes (n + 1) ++ [93])) (by omega)
        (fun hc => by simp [arrOnly] at hc) hdrop0 (Or.inr ⟨44, _, rfl, by norm_num⟩)
    have hcomma : isValidComma data (i + 1) 93 = (i + 1, true) :=
      isValidComma_comma data (i + 1) 93 (lt_of_drop_cons hdrop1) (getD_at data hdrop1)
    rw [aelems_ok f data i d (arrOnly M) c e0 (i + 1) (lt_of_drop_cons hdrop0) hval
      (by rw [hcomma])]
    rw [if_neg (fun hc => absurd hc.2 (by simp only [arrOnly]; push_cast at hcM; omega))]
    rw [hcomma]
    rw [if_neg (show ¬ data.getD (i + 1) 0 = 93 by rw [getD_at data hdrop1]; decide)]
    exact ih f data (i + 2) d M (c + 1) none (by omega) hdrop2 (by push_cast at hcM ⊢; omega)

theorem oMember_seq (j : Nat) : ∀ (fuel : Nat) (data : List Nat) (i : Nat) (d M c : Int),
    2 * j + 3 ≤ fuel →
    data.drop i = memSeq (j + 1) ++ [125] →
    c + (j : Int) + 1 ≤ M →
    oMember fuel data i d (entryOnly M) c = ⟨i + 6 * j + 6, true, none, d - 1⟩ := by
  induction j with
  | zero =>
    intro fuel data i d M c hf hdrop hcM
    rw [show i + 6 * 0 + 6 = i + 6 by omega]
    have hdrop0 : data.drop i = [34, 97, 34, 58, 49, 125] := hdrop
    obtain ⟨f, rfl⟩ : ∃ f, fuel = f + 1 := ⟨fuel - 1, by omega⟩
    have hdrop1 : data.drop (i + 1) = [97, 34, 58, 49, 125] := drop_succ hdrop0
    have hdrop2 : data.drop (i + 2) = [34, 58, 49, 125] := drop_succ hdrop1
    have hdrop3 : data.drop (i + 3) = [58, 49, 125] := drop_succ hdrop2
    have hdrop4 : data.drop (i + 4) = [49, 125] := drop_succ hdrop3
    have hdrop5 : data.drop (i + 5) = [125] := drop_succ hdrop4
    have hkey : isValidateString data (i + 1) = (i + 3, true) := by
      rw [isValidateString_run 1 data (i + 1) (58 :: 49 :: [125]) hdrop1]
    have hklen : validateStringLength data i (i + 3)
        (entryOnly M).objectKeyLengthEnabled (entryOnly M).ObjectKeyLength
        objectKeyValueLength = none :=
      vsl_disabled data i (i + 3) (entryOnly M).ObjectKeyLength objectKeyValueLength
    have hcolonEq : isValidColon data (i + 3) = (i + 4, true) :=
      isValidColon_colon data (i + 3) (lt_of_drop_cons hdrop3) (getD_at data hdrop3)
    have hval : validany f data (i + 4) d (entryOnly M) = ⟨i + 5, true, none, d⟩ :=
      validany_one f data (i + 4) d (entryOnly M) [125] (by omega)
        (fun hc => by simp [entryOnly] at hc) hdrop4 (Or.inr ⟨125, [], rfl, by norm_num⟩)
    have hcommaEq : isValidComma data (i + 5) 125 = (i + 5, true) :=
      isValidComma_close data (i + 5) 125 (lt_of_drop_cons hdrop5) (getD_at data hdrop5)
        (by norm_num) (by norm_num)
    rw [oMember_run f data i d (entryOnly M) c (i + 3) (i + 5) hkey
      (fun hc => absurd hc.2 (by simp only [entryOnly]; omega)) hklen
      (by rw [hcolonEq]) (by rw [hcolonEq]; exact hval) (by rw [hcommaEq])]
    rw [hcommaEq]
    rw [if_pos (getD_at data hdrop5)]
  | succ n ih =>
    intro fuel data i d M c hf hdrop hcM
    rw [show i + 6 * (n + 1) + 6 = i + 6 + 6 * n + 6 by omega]
    have hdrop0 : data.drop i =
        34 :: 97 :: 34 :: 58 :: 49 :: 44 :: (memSeq (n + 1) ++ [125]) := hdrop
    obtain ⟨f, rfl⟩ : ∃ f, fuel = (f + 1) + 1 := ⟨fuel - 2, by omega⟩
    have hdrop1 : data.drop (i + 1) =
        97 :: 34 :: 58 :: 49 :: 44 :: (memSeq (n + 1) ++ [125]) := drop_succ hdrop0
    have hdrop2 : data.drop (i + 2) =
        34 :: 58 :: 49 :: 44 :: (memSeq (n + 1) ++ [125]) := drop_succ hdrop1
    have hdrop3 : data.drop (i + 3) =
        58 :: 49 :: 44 :: (memSeq (n + 1) ++ [125]) := drop_succ hdrop2
    have hdrop4 : data.drop (i + 4) =
        49 :: 44 :: (memSeq (n + 1) ++ [125]) := drop_succ hdrop3
    have hdrop5 : data.drop (i + 5) =
        44 :: (memSeq (n + 1) ++ [125]) := drop_succ hdrop4
    have hdrop6 : data.drop (i + 6) = memSeq (n + 1) ++ [125] := drop_succ hdrop5
    have hkey : isValidateString data (i + 1) = (i + 3, true) := by
      rw [isValidateString_run 1 data (i + 1)
        (58 :: 49 :: 44 :: (memSeq (n + 1) ++ [125])) hdrop1]
    have hklen : validateStringLength data i (i + 3)
        (entryOnly M).objectKeyLengthEnabled (entryOnly M).ObjectKeyLength
        objectKeyValueLength = none :=
      vsl_disabled data i (i + 3) (entryOnly M).ObjectKeyLength objectKeyValueLength
    have hcolonEq : isValidColon data (i + 3) = (i + 4, true) :=
      isValidColon_colon data (i + 3) (lt_of_drop_cons hdrop3) (getD_at data hdrop3)
    have hval : validany (f + 1) data (i + 4) d (entryOnly M) = ⟨i + 5, true, none, d⟩ :=
      validany_one (f + 1) data (i + 4) d (entryOnly M)
        (44 :: (memSeq (n + 1) ++ [125])) (by omega)
        (fun hc => by simp [entryOnly] at hc) hdrop4 (Or.inr ⟨44, _, rfl, by norm_num⟩)
    have hcommaEq : isValidComma data (i + 5) 125 = (i + 5, true) :=
      isValidComma_comma data (i + 5) 125 (lt_of_drop_cons hdrop5) (getD_at data hdrop5)
    rw [oMember_run (f + 1) data i d (entryOnly M) c (i + 3) (i + 5) hkey
      (fun hc => absurd hc.2 (by simp only [entryOnly]; push_cast at hcM; omega)) hklen
      (by rw [hcolonEq]) (by rw [hcolonEq]; exact hval) (by rw [hcommaEq])]
    rw [hcommaEq]
    obtain ⟨r6, hr6⟩ := memSeq_cons n
    have hdrop6c : data.drop (i + 6) = 34 :: r6 := by rw [hdrop6, hr6]
    rw [if_neg (show ¬ data.getD (i + 5) 0 = 125 by rw [getD_at data hdrop5]; decide)]
    rw [oSeek_key f data (i + 6) d (entryOnly M) (c + 1) (lt_of_drop_cons hdrop6c)
      (getD_at data hdrop6c)]
    exact ih f data (i + 6) d M (c + 1) (by omega) hdrop6 (by push_cast at hcM ⊢; omega)

theorem oMember_over (j : Nat) : ∀ (fuel : Nat) (data : List Nat) (i : Nat) (d M c : Int),
    2 * j + 3 ≤ fuel →
    data.drop i = memSeq (j + 1) ++ [125] →
    c + (j : Int) + 1 = M + 1 →
    oMember fuel data i d (entryOnly M) c =
      ⟨i + 6 * j + 3, false,
        some (fmtLimitErr "maxObjectEntryCountReached" M (M + 1)), d⟩ := by
  induction j with
  | zero =>
    intro fuel data i d M c hf hdrop hcM
    rw [show i + 6 * 0 + 3 = i + 3 by omega]
    have hdrop0 : data.drop i = [34, 97, 34, 58, 49, 125] := hdrop
    obtain ⟨f, rfl⟩ : ∃ f, fuel = f + 1 := ⟨fuel - 1, by omega⟩
    have hdrop1 : data.drop (i + 1) = [97, 34, 58, 49, 125] := drop_succ hdrop0
    have hkey : isValidateString data (i + 1) = (i + 3, true) := by
      rw [isValidateString_run 1 data (i + 1) (58 :: 49 :: [125]) hdrop1]
    rw [oMember_countErr f data i d (entryOnly M) c (i + 3) hkey
      ⟨rfl, by simp only [entryOnly]; omega⟩]
    rw [show c + 1 = M + 1 by omega]
    simp only [entryOnly]
  | succ n ih =>
    intro fuel data i d M c hf hdrop hcM
    rw [show i + 6 * (n + 1) + 3 = i + 6 + 6 * n + 3 by omega]
    have hdrop0 : data.drop i =
        34 :: 97 :: 34 :: 58 :: 49 :: 44 :: (memSeq (n + 1) ++ [125]) := hdrop
    obtain ⟨f, rfl⟩ : ∃ f, fuel = (f + 1) + 1 := ⟨fuel - 2, by omega⟩
    have hdrop1 : data.drop (i + 1) =
        97 :: 34 :: 58 :: 49 :: 44 :: (memSeq (n + 1) ++ [125]) := drop_succ hdrop0
    have hdrop2 : data.drop (i + 2) =
        34 :: 58 :: 49 :: 44 :: (memSeq (n + 1) ++ [125]) := drop_succ hdrop1
    have hdrop3 : data.drop (i + 3) =
        58 :: 49 :: 44 :: (memSeq (n + 1) ++ [125]) := drop_succ hdrop2
    have hdrop4 : data.drop (i + 4) =
        49 :: 44 :: (memSeq (n + 1) ++ [125]) := drop_succ hdrop3
    have hdrop5 : data.drop (i + 5) =
        44 :: (memSeq (n + 1) ++ [125]) := drop_succ hdrop4
    have hdrop6 : data.drop (i + 6) = memSeq (n + 1) ++ [125] := drop_succ hdrop5
    have hkey : isValidateString data (i + 1) = (i + 3, true) := by
      rw [isValidateString_run 1 data (i + 1)
        (58 :: 49 :: 44 :: (memSeq (n + 1) ++ [125])) hdrop1]
    have hklen : validateStringLength data i (i + 3)
        (entryOnly M).objectKeyLengthEnabled (entryOnly M).ObjectKeyLength
        objectKeyValueLength = none :=
      vsl_disabled data i (i + 3) (entryOnly M).ObjectKeyLength objectKeyValueLength
    have hcolonEq : isValidColon data (i + 3) = (i + 4, true) :=
      isValidColon_colon data (i + 3) (lt_of_drop_cons hdrop3) (getD_at data hdrop3)
    have hval : validany (f + 1) data (i + 4) d (entryOnly M) = ⟨i + 5, true, none, d⟩ :=
      validany_one (f + 1) data (i + 4) d (entryOnly M)
        (44 :: (memSeq (n + 1) ++ [125])) (by omega)
        (fun hc => by simp [entryOnly] at hc) hdrop4 (Or.inr ⟨44, _, rfl, by norm_num⟩)
    have hcommaEq : isValidComma data (i + 5) 125 = (i + 5, true) :=
      isValidComma_comma data (i + 5) 125 (lt_of_drop_cons hdrop5) (getD_at data hdrop5)
    rw [oMember_run (f + 1) data i d (entryOnly M) c (i + 3) (i + 5) hkey
      (fun hc => absurd hc.2 (by simp only [entryOnly]; push_cast at hcM; omega)) hklen
      (by rw [hcolonEq]) (by rw [hcolonEq]; exact hval) (by rw [hcommaEq])]
    rw [hcommaEq]
    obtain ⟨r6, hr6⟩ := memSeq_cons n
    have hdrop6c : data.drop (i + 6) = 34 :: r6 := by rw [hdrop6, hr6]
    rw [if_neg (show ¬ data.getD (i + 5) 0 = 125 by rw [getD_at data hdrop5]; decide)]
    rw [oSeek_key f data (i + 6) d (entryOnly M) (c + 1) (lt_of_drop_cons hdrop6c)
      (getD_at data hdrop6c)]
    exact ih f data (i + 6) d M (c + 1) (by omega) hdrop6 (by push_cast at hcM ⊢; omega)

theorem arrDoc_pass (m : Nat) :
    VerifyBytes (arrOnly (m + 1 : Nat)) (arrDoc (m + 1)) = (true, none) := by
  have hdoc : (arrDoc (m + 1)).drop 0 = 91 :: (sepOnes (m + 1) ++ [93]) := by
    simp [arrDoc]
  have hlen : (arrDoc (m + 1)).length = 2 * m + 3 := by
    simp only [arrDoc, List.length_cons, List.length_append, List.length_singleton,
      List.length_nil, sepOnes_length]
  have hdrop1 : (arrDoc (m + 1)).drop 1 = sepOnes (m + 1) ++ [93] := drop_succ hdoc
  obtain ⟨r1, hr1⟩ := sepOnes_cons m
  have hdrop1c : (arrDoc (m + 1)).drop 1 = 49 :: r1 := by rw [hdrop1, hr1]
  obtain ⟨f, hF, hf⟩ : ∃ f, driverFuel (arrDoc (m + 1)) = (((f + 1) + 1) + 1) + 1 ∧
      2 * m + 3 ≤ f :=
    ⟨driverFuel (arrDoc (m + 1)) - 4, by simp only [driverFuel, hlen]; omega,
      by simp only [driverFuel, hlen]; omega⟩
  have hrun := aelems_run m f (arrDoc (m + 1)) 1 (0 + 1) (m + 1 : Nat) 0 none hf hdrop1
    (by push_cast; omega)
  have hvalTop : validany (driverFuel (arrDoc (m + 1))) (arrDoc (m + 1)) 0 0
      (arrOnly (m + 1 : Nat)) = ⟨2 * m + 3, true, none, 0⟩ := by
    rw [hF]
    rw [validany_succ _ _ _ _ _ (fun hc => by simp [arrOnly] at hc)]
    rw [vloop_openArr _ _ _ _ _ (by rw [hlen]; omega) (getD_at _ hdoc)]
    rw [isValidArray_succ _ _ _ _ _ (fun hc => by simp [arrOnly] at hc)]
    rw [aloop_enter _ _ _ _ _ (by rw [hlen]; omega)
      (by rw [getD_at _ hdrop1c]; decide) (by rw [getD_at _ hdrop1c]; decide)]
    rw [hrun]
    simp only [Res.mk.injEq]
    refine ⟨by omega, by trivial, by trivial, by omega⟩
  exact VerifyBytes_of_validany_ok _ _ _
    (skipWS0_of_getD _ 91 (getD_at _ hdoc) (by decide)) (by rw [hlen]; omega) hvalTop
    (by rw [hlen]; omega)

theorem arrDoc_fail (M : Nat) :
    VerifyBytes (arrOnly M) (arrDoc (M + 1)) =
      (false, some (fmtLimitErr "maxArrayElementCountReached" (M : Int)
        ((M : Int) + 1))) := by
  have hdoc : (arrDoc (M + 1)).drop 0 = 91 :: (sepOnes (M + 1) ++ [93]) := by
    simp [arrDoc]
  have hlen : (arrDoc (M + 1)).length = 2 * M + 3 := by
    simp only [arrDoc, List.length_cons, List.length_append, List.length_singleton,
      List.length_nil, sepOnes_length]
  have hdrop1 : (arrDoc (M + 1)).drop 1 = sepOnes (M + 1) ++ [93] := drop_succ hdoc
  obtain ⟨r1, hr1⟩ := sepOnes_cons M
  have hdrop1c : (arrDoc (M + 1)).drop 1 = 49 :: r1 := by rw [hdrop1, hr1]
  obtain ⟨f, hF, hf⟩ : ∃ f, driverFuel (arrDoc (M + 1)) = (((f + 1) + 1) + 1) + 1 ∧
      2 * M + 3 ≤ f :=
    ⟨driverFuel (arrDoc (M + 1)) - 4, by simp only [driverFuel, hlen]; omega,
      by simp only [driverFuel, hlen]; omega⟩
  have hover := aelems_over M f (arrDoc (M + 1)) 1 (0 + 1) (M : Int) 0 none hf hdrop1
    (by omega)
  have hvalTop : validany (driverFuel (arrDoc (M + 1))) (arrDoc (M + 1)) 0 0
      (arrOnly M) = ⟨1 + 2 * M + 1, false,
        some (fmtLimitErr "maxArrayElementCountReached" (M : Int) ((M : Int) + 1)),
        0 + 1⟩ := by
    rw [hF]
    rw [validany_succ _ _ _ _ _ (fun hc => by simp [arrOnly] at hc)]
    rw [vloop_openArr _ _ _ _ _ (by rw [hlen]; omega) (getD_at _ hdoc)]
    rw [isValidArray_succ _ _ _ _ _ (fun hc => by simp [arrOnly] at hc)]
    rw [aloop_enter _ _ _ _ _ (by rw [hlen]; omega)
      (by rw [getD_at _ hdrop1c]; decide) (by rw [getD_at _ hdrop1c]; decide)]
    rw [hover]
  have h1 := VerifyBytes_of_validany_err (arrOnly M) (arrDoc (M + 1)) _
    (skipWS0_of_getD _ 91 (getD_at _ hdoc) (by decide)) (by rw [hlen]; omega) hvalTop
    (by simp)
  simpa using h1

theorem objDoc_pass (m : Nat) :
    VerifyBytes (entryOnly (m + 1 : Nat)) (objDoc (m + 1)) = (true, none) := by
  have hdoc : (objDoc (m + 1)).drop 0 = 123 :: (memSeq (m + 1) ++ [125]) := by
    simp [objDoc]
  have hlen : (objDoc (m + 1)).length = 6 * m + 7 := by
    simp only [objDoc, List.length_cons, List.length_append, List.length_singleton,
      List.length_nil, memSeq_length]
  have hdrop1 : (objDoc (m + 1)).drop 1 = memSeq (m + 1) ++ [125] := drop_succ hdoc
  obtain ⟨r1, hr1⟩ := memSeq_cons m
  have hdrop1c : (objDoc (m + 1)).drop 1 = 34 :: r1 := by rw [hdrop1, hr1]
  obtain ⟨f, hF, hf⟩ : ∃ f, driverFuel (objDoc (m + 1)) = (((f + 1) + 1) + 1) + 1 ∧
      2 * m + 3 ≤ f :=
    ⟨driverFuel (objDoc (m + 1)) - 4, by simp only [driverFuel, hlen]; omega,
      by simp only [driverFuel, hlen]; omega⟩
  have hrun := oMember_seq m f (objDoc (m + 1)) 1 (0 + 1) (m + 1 : Nat) 0 hf hdrop1
    (by push_cast; omega)
  have hvalTop : validany (driverFuel (objDoc (m + 1))) (objDoc (m + 1)) 0 0
      (entryOnly (m + 1 : Nat)) = ⟨6 * m + 7, true, none, 0⟩ := by
    rw [hF]
    rw [validany_succ _ _ _ _ _ (fun hc => by simp [entryOnly] at hc)]
    rw [vloop_openObj _ _ _ _ _ (by rw [hlen]; omega) (getD_at _ hdoc)]
    rw [isValidObject_succ _ _ _ _ _ (fun hc => by simp [entryOnly] at hc)]
    rw [oloop_key _ _ _ _ _ (by rw [hlen]; omega) (getD_at _ hdrop1c)]
    rw [hrun]
    simp only [Res.mk.injEq]
    refine ⟨by omega, by trivial, by trivial, by omega⟩
  exact VerifyBytes_of_validany_ok _ _ _
    (skipWS0_of_getD _ 123 (getD_at _ hdoc) (by decide)) (by rw [hlen]; omega) hvalTop
    (by rw [hlen]; omega)

theorem objDoc_fail (M : Nat) :
    VerifyBytes (entryOnly M) (objDoc (M + 1)) =
      (false, some (fmtLimitErr "maxObjectEntryCountReached" (M : Int)
        ((M : Int) + 1))) := by
  have hdoc : (objDoc (M + 1)).drop 0 = 123 :: (memSeq (M + 1) ++ [125]) := by
    simp [objDoc]
  have hlen : (objDoc (M + 1)).length = 6 * M + 7 := by
    simp only [objDoc, List.length_cons, List.length_append, List.length_singleton,
      List.length_nil, memSeq_length]
  have hdrop1 : (objDoc (M + 1)).drop 1 = memSeq (M + 1) ++ [125] := drop_succ hdoc
  obtain ⟨r1, hr1⟩ := memSeq_cons M
  have hdrop1c : (objDoc (M + 1)).drop 1 = 34 :: r1 := by rw [hdrop1, hr1]
  obtain ⟨f, hF, hf⟩ : ∃ f, driverFuel (objDoc (M + 1)) = (((f + 1) + 1) + 1) + 1 ∧
      2 * M + 3 ≤ f :=
    ⟨driverFuel (objDoc (M + 1)) - 4, by simp only [driverFuel, hlen]; omega,
      by simp only [driverFuel, hlen]; omega⟩
  have hover := oMember_over M f (objDoc (M + 1)) 1 (0 + 1) (M : Int) 0 hf hdrop1
    (by omega)
  have hvalTop : validany (driverFuel (objDoc (M + 1))) (objDoc (M + 1)) 0 0
      (entryOnly M) = ⟨1 + 6 * M + 3, false,
        some (fmtLimitErr "maxObjectEntryCountReached" (M : Int) ((M : Int) + 1)),
        0 + 1⟩ := by
    rw [hF]
    rw [validany_succ _ _ _ _ _ (fun hc => by simp [entryOnly] at hc)]
    rw [vloop_openObj _ _ _ _ _ (by rw [hlen]; omega) (getD_at _ hdoc)]
    rw [isValidObject_succ _ _ _ _ _ (fun hc => by simp [entryOnly] at hc)]
    rw [oloop_key _ _ _ _ _ (by rw [hlen]; omega) (getD_at _ hdrop1c)]
    rw [hover]
  have h1 := VerifyBytes_of_validany_err (entryOnly M) (objDoc (M + 1)) _
    (skipWS0_of_getD _ 123 (getD_at _ hdoc) (by decide)) (by rw [hlen]; omega) hvalTop
    (by simp)
  simpa using h1

/-- C5: the length guard counts UTF-8 runes of the quoted span (both
quote bytes included) and subtracts 2, so multi-byte characters count
once; with the string-value (resp. object-key) limit enabled at maximum
`L`, a string (resp. key) of exactly `L` characters passes and one of
`L + 1` characters fails with found `= L + 1`; the two-character CJK
string passes at maximum 2 and fails at maximum 1 with found `= 2`. -/
theorem claim_C5 (L : Nat) :
    VerifyBytes (strOnly L) (strDoc L) = (true, none) ∧
    VerifyBytes (strOnly L) (strDoc (L+1)) =
      (false, some (fmtLimitErr stringValueLength (L : Int) ((L : Int) + 1))) ∧
    VerifyBytes (keyOnly L) (keyDoc L) = (true, none) ∧
    VerifyBytes (keyOnly L) (keyDoc (L+1)) =
      (false, some (fmtLimitErr objectKeyValueLength (L : Int) ((L : Int) + 1))) ∧
    VerifyBytes (strOnly 2) [34, 228, 184, 150, 231, 149, 140, 34] = (true, none) ∧
    VerifyBytes (strOnly 1) [34, 228, 184, 150, 231, 149, 140, 34] =
      (false, some (fmtLimitErr stringValueLength 1 2)) := by
  have hdropS : ∀ M : Nat, (strDoc M).drop 0 =
      34 :: (List.replicate M 97 ++ 34 :: []) := fun M => by simp [strDoc]
  have hlenS : ∀ M : Nat, (strDoc M).length = M + 2 := fun M => by
    simp only [strDoc, List.length_cons, List.length_append, List.length_replicate,
      List.length_singleton, List.length_nil]
  have hwsS : ∀ M : Nat, skipWS (strDoc M) 0 = 0 := fun M =>
    skipWS0_of_getD _ 34 (getD_at _ (hdropS M)) (by decide)
  refine ⟨?_, ?_, ?_, ?_, by decide, by decide⟩
  · -- string value of exactly L characters passes
    have hval := validany_str (driverFuel (strDoc L)) (strDoc L) 0 0 (strOnly L) L []
      (by simp only [driverFuel]; omega) (by simp [strOnly]) (hdropS L)
    have hnone : validateStringLength (strDoc L) 0 (0 + L + 2)
        (strOnly L).stringLenEnabled (strOnly L).StringValueLen stringValueLength
        = none := by
      rw [vsl_run (strDoc L) 0 L [] _ _ _ (hdropS L)]
      rw [if_neg (fun hc => absurd hc.2 (by simp only [strOnly]; omega))]
    have hval2 : validany (driverFuel (strDoc L)) (strDoc L) 0 0 (strOnly L)
        = ⟨L + 2, true, none, 0⟩ := by
      rw [hval, hnone]
      simp only [Res.mk.injEq]
      refine ⟨by omega, by trivial, by trivial, by trivial⟩
    exact VerifyBytes_of_validany_ok _ _ _ (hwsS L) (by rw [hlenS L]; omega) hval2
      (by rw [hlenS L]; omega)
  · -- string value of L+1 characters fails with found = L+1
    have hval := validany_str (driverFuel (strDoc (L+1))) (strDoc (L+1)) 0 0 (strOnly L)
      (L+1) [] (by simp only [driverFuel]; omega) (by simp [strOnly]) (hdropS (L+1))
    have hsome : validateStringLength (strDoc (L+1)) 0 (0 + (L+1) + 2)
        (strOnly L).stringLenEnabled (strOnly L).StringValueLen stringValueLength
        = some (fmtLimitErr stringValueLength (L : Int) ((L : Int) + 1)) := by
      rw [vsl_run (strDoc (L+1)) 0 (L+1) [] _ _ _ (hdropS (L+1))]
      rw [if_pos ⟨by simp [strOnly], by simp only [strOnly]; push_cast; omega⟩]
      simp only [strOnly]
      push_cast
      ring_nf
    have hval2 : validany (driverFuel (strDoc (L+1))) (strDoc (L+1)) 0 0 (strOnly L)
        = ⟨L + 3, true, some (fmtLimitErr stringValueLength (L : Int) ((L : Int) + 1)),
            0⟩ := by
      rw [hval, hsome]
      simp only [Res.mk.injEq]
      refine ⟨by omega, by trivial, by trivial, by trivial⟩
    have h1 := VerifyBytes_of_validany_err (strOnly L) (strDoc (L+1)) _
      (hwsS (L+1)) (by rw [hlenS (L+1)]; omega) hval2 (by simp)
    simpa using h1
  · -- object key of exactly L characters passes
    have hdoc : (keyDoc L).drop 0 =
        123 :: (34 :: (List.replicate L 97 ++ [34, 58, 49, 125])) := by
      simp [keyDoc]
    have hlenK : (keyDoc L).length = L + 6 := by
      simp only [keyDoc, List.length_cons, List.length_append, List.length_replicate,
        List.length_nil]
    have hdrop1 : (keyDoc L).drop 1 =
        34 :: (List.replicate L 97 ++ 34 :: [58, 49, 125]) := drop_succ hdoc
    have hscan : isValidateString (keyDoc L) 2 = (L + 3, true) := by
      rw [isValidateString_run L (keyDoc L) 2 [58, 49, 125] (drop_succ hdrop1)]
      simp only [Prod.mk.injEq]
      exact ⟨by omega, by trivial⟩
    have hklen : validateStringLength (keyDoc L) 1 (L + 3)
        (keyOnly L).objectKeyLengthEnabled (keyOnly L).ObjectKeyLength
        objectKeyValueLength = none := by
      have h1 := vsl_run (keyDoc L) 1 L [58, 49, 125] (keyOnly L).objectKeyLengthEnabled
        (keyOnly L).ObjectKeyLength objectKeyValueLength hdrop1
      rw [show 1 + L + 2 = L + 3 by omega] at h1
      rw [h1, if_neg (fun hc => absurd hc.2 (by simp only [keyOnly]; omega))]
    have hsplit : (keyDoc L).drop 1 =
        (34 :: (List.replicate L 97 ++ [34])) ++ [58, 49, 125] := by
      rw [hdrop1]
      simp
    have hdropColon : (keyDoc L).drop (L + 3) = 58 :: [49, 125] := by
      have h3 := drop_add_of_drop hsplit
      rw [show (34 :: (List.replicate L 97 ++ [34])).length = L + 2 by simp] at h3
      rw [show 1 + (L + 2) = L + 3 by omega] at h3
      exact h3
    have hcolon : isValidColon (keyDoc L) (L + 3) = (L + 4, true) :=
      isValidColon_colon _ _ (lt_of_drop_cons hdropColon) (getD_at _ hdropColon)
    have hdropVal : (keyDoc L).drop (L + 4) = 49 :: [125] := drop_succ hdropColon
    have hdropClose : (keyDoc L).drop (L + 5) = [125] := drop_succ hdropVal
    obtain ⟨f, hF, hf2⟩ : ∃ f, driverFuel (keyDoc L) = ((((f+1)+1)+1)+1)+1 ∧ 2 ≤ f :=
      ⟨driverFuel (keyDoc L) - 5, by simp only [driverFuel]; omega,
        by simp only [driverFuel]; omega⟩
    have hvalInner : validany f (keyDoc L) (L + 4) 1 (keyOnly L)
        = ⟨L + 5, true, none, 1⟩ := by
      rw [validany_one f (keyDoc L) (L + 4) 1 (keyOnly L) [125] hf2
        (by simp [keyOnly]) hdropVal (Or.inr ⟨125, [], rfl, by norm_num⟩)]
    have hcomma : isValidComma (keyDoc L) (L + 5) 125 = (L + 5, true) :=
      isValidComma_close _ _ _ (lt_of_drop_cons hdropClose) (getD_at _ hdropClose)
        (by norm_num) (by norm_num)
    have hmem : oMember (f + 1) (keyDoc L) 1 1 (keyOnly L) 0
        = ⟨L + 6, true, none, 0⟩ := by
      rw [oMember_run f (keyDoc L) 1 1 (keyOnly L) 0 (L + 3) (L + 5) hscan
        (by simp [keyOnly]) hklen (by rw [hcolon]) (by rw [hcolon]; exact hvalInner)
        (by rw [hcomma])]
      simp only [hcomma]
      rw [if_pos (getD_at _ hdropClose)]
      simp only [Res.mk.injEq]
      exact ⟨trivial, trivial, trivial, by omega⟩
    have hvalTop : validany (driverFuel (keyDoc L)) (keyDoc L) 0 0 (keyOnly L)
        = ⟨L + 6, true, none, 0⟩ := by
      rw [hF]
      rw [validany_succ _ _ _ _ _ (by simp [keyOnly])]
      rw [vloop_openObj _ _ _ _ _ (by rw [hlenK]; omega) (getD_at _ hdoc)]
      rw [isValidObject_succ _ _ _ _ _ (by simp [keyOnly])]
      rw [oloop_key _ _ _ _ _ (by rw [hlenK]; omega) (getD_at _ hdrop1)]
      rw [show (0 : Int) + 1 = 1 by norm_num]
      exact hmem
    exact VerifyBytes_of_validany_ok _ _ _
      (skipWS0_of_getD _ 123 (getD_at _ hdoc) (by decide))
      (by rw [hlenK]; omega) hvalTop (by rw [hlenK]; omega)
  · -- object key of L+1 characters fails with found = L+1
    have hdoc : (keyDoc (L+1)).drop 0 =
        123 :: (34 :: (List.replicate (L+1) 97 ++ [34, 58, 49, 125])) := by
      simp [keyDoc]
    have hlenK : (keyDoc (L+1)).length = L + 7 := by
      simp only [keyDoc, List.length_cons, List.length_append, List.length_replicate,
        List.length_nil]
    have hdrop1 : (keyDoc (L+1)).drop 1 =
        34 :: (List.replicate (L+1) 97 ++ 34 :: [58, 49, 125]) := drop_succ hdoc
    have hscan : isValidateString (keyDoc (L+1)) 2 = (L + 4, true) := by
      rw [isValidateString_run (L+1) (keyDoc (L+1)) 2 [58, 49, 125] (drop_succ hdrop1)]
      simp only [Prod.mk.injEq]
      exact ⟨by omega, by trivial⟩
    have hklen : validateStringLength (keyDoc (L+1)) 1 (L + 4)
        (keyOnly L).objectKeyLengthEnabled (keyOnly L).ObjectKeyLength
        objectKeyValueLength
        = some (fmtLimitErr objectKeyValueLength (L : Int) ((L : Int) + 1)) := by
      have h1 := vsl_run (keyDoc (L+1)) 1 (L+1) [58, 49, 125]
        (keyOnly L).objectKeyLengthEnabled (keyOnly L).ObjectKeyLength
        objectKeyValueLength hdrop1
      rw [show 1 + (L+1) + 2 = L + 4 by omega] at h1
      rw [h1, if_pos ⟨by simp [keyOnly], by simp only [keyOnly]; push_cast; omega⟩]
      simp only [keyOnly]
      push_cast
      ring_nf
    obtain ⟨f, hF, hf2⟩ : ∃ f, driverFuel (keyDoc (L+1)) = ((((f+1)+1)+1)+1)+1 ∧ 2 ≤ f :=
      ⟨driverFuel (keyDoc (L+1)) - 5, by simp only [driverFuel]; omega,
        by simp only [driverFuel]; omega⟩
    have hmem : oMember (f + 1) (keyDoc (L+1)) 1 1 (keyOnly L) 0
        = ⟨L + 4, false,
            some (fmtLimitErr objectKeyValueLength (L : Int) ((L : Int) + 1)), 1⟩ := by
      rw [oMember_keyErr f (keyDoc (L+1)) 1 1 (keyOnly L) 0 (L + 4) _ hscan
        (by simp [keyOnly]) hklen]
    have hvalTop : validany (driverFuel (keyDoc (L+1))) (keyDoc (L+1)) 0 0 (keyOnly L)
        = ⟨L + 4, false,
            some (fmtLimitErr objectKeyValueLength (L : Int) ((L : Int) + 1)), 1⟩ := by
      rw [hF]
      rw [validany_succ _ _ _ _ _ (by simp [keyOnly])]
      rw [vloop_openObj _ _ _ _ _ (by rw [hlenK]; omega) (getD_at _ hdoc)]
      rw [isValidObject_succ _ _ _ _ _ (by simp [keyOnly])]
      rw [oloop_key _ _ _ _ _ (by rw [hlenK]; omega) (getD_at _ hdrop1)]
      rw [show (0 : Int) + 1 = 1 by norm_num]
      exact hmem
    have h1 := VerifyBytes_of_validany_err (keyOnly L) (keyDoc (L+1)) _
      (skipWS0_of_getD _ 123 (getD_at _ hdoc) (by decide))
      (by rw [hlenK]; omega) hvalTop (by simp)
    simpa using h1

/-- C6 (counterexample to the claim as stated): the claim says the object
entry counter increments after each member; in the code it increments
after each member KEY, before the member value is validated, so the
document with one complete member and a second member whose value is
missing is rejected with an entry-count error of found 2 at maximum 1,
where an after-each-member counter could never have counted a second,
never-completed member. -/
theorem claim_C6_counterexample :
    VerifyBytes (entryOnly 1) [123, 34, 97, 34, 58, 49, 44, 34, 98, 34, 58, 125] =
      (false, some (fmtLimitErr "maxObjectEntryCountReached" 1 2)) := by decide

/-- C6 (amended): with array element counting (resp. object entry counting)
enabled at maximum M, an array of exactly M elements (an object of exactly
M members) passes and M + 1 elements (members) fail with a count error of
found M + 1 — the maximum itself is allowed, only strictly greater fails;
the object entry counter increments after each member KEY, before the
member value is validated, as the last conjunct observes at maximum 1 on a
document whose second member has a key but no valid value. -/
theorem claim_C6 (M : Nat) :
    VerifyBytes (arrOnly M) (arrDoc M) = (true, none) ∧
    VerifyBytes (arrOnly M) (arrDoc (M + 1)) =
      (false, some (fmtLimitErr "maxArrayElementCountReached" (M : Int)
        ((M : Int) + 1))) ∧
    VerifyBytes (entryOnly M) (objDoc M) = (true, none) ∧
    VerifyBytes (entryOnly M) (objDoc (M + 1)) =
      (false, some (fmtLimitErr "maxObjectEntryCountReached" (M : Int)
        ((M : Int) + 1))) ∧
    VerifyBytes (entryOnly 1) [123, 34, 97, 34, 58, 49, 44, 34, 98, 34, 58, 125] =
      (false, some (fmtLimitErr "maxObjectEntryCountReached" 1 2)) := by
  refine ⟨?_, arrDoc_fail M, ?_, objDoc_fail M, by decide⟩
  · cases M with
    | zero => decide
    | succ m => exact arrDoc_pass m
  · cases M with
    | zero => decide
    | succ m => exact objDoc_pass m

/-- C7 (code bug): the spec claims the RFC 8259 number grammar, under
which a `-` must be followed by a digit; the scanner accepts an integer
part of zero digits unless the input ends right after the sign, so `[-]`
and the member value in the object document both validate, while the
fraction and exponent parts do require a digit. -/
theorem claim_C7_code_evaluation :
    VerifyBytes {} [91, 45, 93] = (true, none) ∧
    VerifyBytes {} [123, 34, 97, 34, 58, 45, 125] = (true, none) ∧
    VerifyBytes {} [45] = (false, some ErrInvalidJSON) ∧
    VerifyBytes {} [45, 32] = (true, none) ∧
    VerifyBytes {} [91, 49, 46, 93] = (false, some ErrInvalidJSON) ∧
    VerifyBytes {} [91, 49, 101, 93] = (false, some ErrInvalidJSON) ∧
    VerifyBytes {} [49, 46] = (false, some ErrInvalidJSON) ∧
    VerifyBytes {} [45, 49, 46, 53, 101, 45, 51] = (true, none) ∧
    VerifyBytes {} [48, 48] = (false, some ErrInvalidJSON) := by
  decide

/-- C8 counterexample: after the completed (failing) top-level validation
of the truncated document `[[`, the depth counter holds 2, not its
initial value 0 — a validator that fails inside a container leaves the
counter incremented. -/
theorem claim_C8_counterexample :
    (isValidJSON (driverFuel [91, 91]) [91, 91] 0 0 {}).ok = false ∧
    (isValidJSON (driverFuel [91, 91]) [91, 91] 0 0 {}).depth = 2 ∧
    (isValidJSON (driverFuel [91, 91]) [91, 91] 0 0 {}).depth ≠ 0 := by
  decide

/-- C8 (amended): the depth counter is decremented exactly once per
container, at its successful close — a successful container validator
returns the counter decremented by one, a successful value validation and
a successful completed top-level validation return it unchanged; a
failing validation may leave the counter incremented (harmless, because
each `VerifyBytes` call starts a fresh counter). -/
theorem claim_C8_amended :
    ∀ (fuel : Nat) (data : List Nat) (i : Nat) (d : Int) (v : Verify),
      ((isValidArray fuel data i d v).ok = true →
        (isValidArray fuel data i d v).depth = d - 1) ∧
      ((isValidObject fuel data i d v).ok = true →
        (isValidObject fuel data i d v).depth = d - 1) ∧
      ((validany fuel data i d v).ok = true → (validany fuel data i d v).depth = d) ∧
      ((isValidJSON fuel data i d v).ok = true →
        (isValidJSON fuel data i d v).depth = d) := by
  intro fuel data i d v
  obtain ⟨hv, _, ha, _, _, ho, _, _, _⟩ := corePack fuel
  exact ⟨(ha data i d v).1, (ho data i d v).1, (hv data i d v).1,
    isValidJSON_ok_depth fuel data i d v⟩

/-- C8 witness: the closing of a concrete array decrements the counter
exactly once. -/
theorem claim_C8_witness : (isValidArray 16 [93] 0 0 {}).depth = 0 - 1 :=
  (claim_C8_amended 16 [93] 0 0 {}).1 (by decide)

/-- C9: the top-level driver accepts an input iff, after skipping leading
insignificant whitespace, exactly one JSON value (in the sense of the
value dispatcher) is consumed cleanly and only whitespace remains; a scan
failure with a nil error becomes the `jtp.MalformedJSON` sentinel, and a
non-nil limit error is returned unchanged. -/
theorem claim_C9 : ∀ (v : Verify) (data : List Nat),
    VerifyBytes v data = topSpec v data :=
  fun v data => VerifyBytes_eq_topSpec v data

/-- C10: the empty buffer and every all-whitespace buffer are rejected
with the malformed-JSON sentinel under every configuration. -/
theorem claim_C10 : ∀ (v : Verify) (data : List Nat),
    data.all isWSb = true → VerifyBytes v data = (false, some ErrInvalidJSON) := by
  intro v data h
  have hs : skipWS data 0 = data.length :=
    skipWS_of_all data 0 (by omega) (by simpa using h)
  unfold VerifyBytes isValidJSON
  simp [hs]

/-- C10 witness: the empty buffer and a one-space buffer are rejected. -/
theorem claim_C10_witness :
    VerifyBytes {} ([] : List Nat) = (false, some ErrInvalidJSON) ∧
    VerifyBytes {} [32] = (false, some ErrInvalidJSON) :=
  ⟨claim_C10 {} [] (by decide), claim_C10 {} [32] (by decide)⟩

end Gojtp
